import Mathlib

/-!
Shallow embedding of `script/release_manager.py` (campus-guide-server).

Python strings and byte strings are modelled as `Str := List Char`; Python
`list.sort` (stable) is modelled by Mathlib's stable `List.insertionSort`;
the S3 bucket is modelled as an association list of keys to objects whose
listing order is the list order (a `put` of an existing key replaces the
object in place, a `put` of a fresh key appends it; S3 assigns a fresh
`versionId` on every put).  `int(str(n))` round-trips are modelled by
keeping the `version` metadata as a `Nat`.  Fallible Python code (KeyError,
NameError, ValueError, IndexError, missing S3 keys, json decoding) is
modelled with `Except String`.
-/

deriving instance DecidableEq for Except

/-- Python strings / bytes, as lists of characters. -/
abbrev Str := List Char

/-- Coerce a Lean string literal to the embedding's string type. -/
def str (s : String) : Str := s.data

/-- Python `sub in s` (substring containment). -/
def strContains (s sub : Str) : Bool :=
  s.tails.any fun t => sub.isPrefixOf t

/-- Python `s[-n:]` (for `n > 0`): the last `n` characters, or all of `s`
if it is shorter than `n`. -/
def takeLast (n : Nat) (s : Str) : Str := s.drop (s.length - n)

/-- Python `s[:-n]` (for `n > 0`): everything but the last `n` characters. -/
def dropLast' (n : Nat) (s : Str) : Str := s.take (s.length - n)

/-- ASCII-lowercasing, as Python `str.lower` on the ASCII filenames this
script deals with. -/
def pyLower (s : Str) : Str := s.map Char.toLower

/-- Python `str(n)` for a natural number. -/
def natStr (n : Nat) : Str := Nat.toDigits 10 n

/-- Python `str(i)` for an integer. -/
def intStr (i : Int) : Str :=
  if i < 0 then '-' :: natStr i.natAbs else natStr i.natAbs

/-- Python truthiness of an optional byte string (`None` and `b''` are
falsy). -/
def pyTruthy : Option Str → Bool
  | none => false
  | some s => !s.isEmpty

/-! ## `ASSET_TYPES` and `get_asset_type` (release_manager.py:19, 67) -/

/-- The `ASSET_TYPES` table (dict iteration order = insertion order). -/
def ASSET_TYPES : List (Str × List Str) :=
  [(str "json", [str ".json"]),
   (str "image", [str ".png", str ".gif", str ".jpg"]),
   (str "text", [str ".txt"])]

/-- Index of the last occurrence of `c`, as Python `s.rfind(c)` (with
`none` for Python's `-1`). -/
def pyRfind (c : Char) : Str → Option Nat
  | [] => none
  | x :: xs =>
    match pyRfind c xs with
    | some i => some (i + 1)
    | none => if x = c then some 0 else none

/-- `get_asset_type` (release_manager.py:67): classify by the substring
from the last `.` on (Python `name[name.rfind('.'):]`, which is
`name[-1:]` when there is no dot), lowercased, against `ASSET_TYPES`. -/
def get_asset_type (asset_name : Str) : Option Str :=
  let filetype :=
    match pyRfind '.' asset_name with
    | some i => asset_name.drop i
    | none => takeLast 1 asset_name
  let filetype := pyLower filetype
  (ASSET_TYPES.find? fun t => t.2.contains filetype).map (·.1)

/-! ## `get_all_assets` (release_manager.py:39) -/

/-- A local directory tree: `os.listdir` yields the plain files (in listing
order) and the subdirectories (in listing order); the code separates the
two itself. -/
inductive FsDir where
  | mk (files : List Str) (subdirs : List (Str × FsDir))

/-- Plain files of a directory node. -/
def FsDir.files : FsDir → List Str
  | .mk fs _ => fs

/-- Subdirectories of a directory node. -/
def FsDir.subdirs : FsDir → List (Str × FsDir)
  | .mk _ ds => ds

/-- Python string `<=` on the `Str` model (code-point lexicographic). -/
def lexLe : Str → Str → Bool
  | [], _ => true
  | _ :: _, [] => false
  | a :: as, b :: bs => if a < b then true else if b < a then false else lexLe as bs

/-- The sort key of `assets.sort(key=lambda s: s[1])`: compare entries by
filename alone. -/
def byName (a b : Str × Str) : Prop := lexLe a.2 b.2 = true

instance : DecidableRel byName := fun a b => by
  unfold byName; infer_instance

/-- `os.path.join(dir, name)` for the relative paths this script builds. -/
def pathJoin (d n : Str) : Str := d ++ str "/" ++ n

/-- `get_all_assets` (release_manager.py:39): collect the files of the root
(excluding dotfiles and any path containing `config`), recurse into every
subdirectory, and stably sort the combined result by filename. -/
def get_all_assets (asset_dir : Str) : FsDir → List (Str × Str)
  | .mk files subdirs =>
    let own := (files.filter fun f =>
      !(str ".").isPrefixOf f && !strContains (pathJoin asset_dir f) (str "config")).map
      fun f => (asset_dir, f)
    let rec_assets := subdirs.attach.map fun s =>
      get_all_assets (pathJoin asset_dir s.1.1) s.1.2
    List.insertionSort byName (own ++ rec_assets.flatten)
termination_by d => sizeOf d
decreasing_by
  simp_wf
  obtain ⟨⟨nm, sub⟩, hmem⟩ := s
  have h := List.sizeOf_lt_of_mem hmem
  simp at h ⊢
  omega

/-! ## `get_most_recent_config` / `get_release_config_version`
(release_manager.py:136, 162) -/

/-- A single ASCII digit test. -/
def isAsciiDigit (c : Char) : Bool := '0' ≤ c && c ≤ '9'

/-- Digits-to-number helper for `pyInt`. -/
def digitsToNat : Nat → Str → Nat
  | acc, [] => acc
  | acc, c :: cs => digitsToNat (acc * 10 + (c.toNat - '0'.toNat)) cs

/-- Python `int(s)` on a plain (optionally signed) decimal string; any
other string raises `ValueError`. -/
def pyInt (s : Str) : Except String Int :=
  let core : Str → Except String Int := fun l =>
    if l.isEmpty || !l.all isAsciiDigit then .error "ValueError: invalid literal for int()"
    else .ok (digitsToNat 0 l)
  match s with
  | '-' :: rest => (core rest).map (fun n => -n)
  | '+' :: rest => core rest
  | l => core l

/-- The version triple parsed from a `config/…` key:
`list(map(int, key.split('/')[1].split('.')[:3]))` (release_manager.py:153). -/
def parseConfigKeyVersion (key : Str) : Except String (List Int) := do
  match (key.splitOn '/')[1]? with
  | none => .error "IndexError: list index out of range"
  | some seg => ((seg.splitOn '.').take 3).mapM pyInt

/-- The inner comparison loop of `get_most_recent_config`
(release_manager.py:154-157): walk `item_version` index by index against
`max_version`; as soon as one component is strictly greater, adopt the
whole of `item_version`.  Indexing `max_version` past its length raises
`IndexError`. -/
def versionBeats : List Int → List Int → Except String Bool
  | [], _ => .ok false
  | _ :: _, [] => .error "IndexError: list index out of range"
  | iv :: ivs, mv :: mvs =>
    if iv > mv then .ok true else versionBeats ivs mvs

/-- One iteration of the `get_most_recent_config` loop over bucket keys
(release_manager.py:150-157): keys that are not `config/`-prefixed (with a
nonempty suffix) are skipped. -/
def mostRecentStep (max_version : List Int) (key : Str) : Except String (List Int) :=
  if key.take 7 ≠ str "config/" ∨ ¬ key.length > 7 then .ok max_version
  else do
    let item_version ← parseConfigKeyVersion key
    let beats ← versionBeats item_version max_version
    .ok (if beats then item_version else max_version)

/-- `get_most_recent_config` (release_manager.py:136): fold the comparison
loop over the bucket's keys in listing order, starting from `[0, 0, 0]`. -/
def get_most_recent_config (keys : List Str) : Except String (List Int) :=
  keys.foldlM mostRecentStep [0, 0, 0]

/-- Greedy scan of one-or-more ASCII digits: on success, return the rest of
the input. -/
def munchDigits1 : Str → Option Str
  | c :: rest => if isAsciiDigit c then some (rest.dropWhile isAsciiDigit) else none
  | [] => none

/-- Scan a literal `.`. -/
def munchDot : Str → Option Str
  | '.' :: rest => some rest
  | _ => none

/-- Python `re.match(r'[0-9]+[.][0-9]+[.][0-9]+', s)` as a Bool: does some
prefix of `s` match the pattern?  (`re.match` anchors only at the start;
greedy digit runs are equivalent to maximal ones for this pattern, since
after a digit run the pattern demands a `.`.) -/
def re_match_vernum (s : Str) : Bool :=
  (do
    let r ← munchDigits1 s
    let r ← munchDot r
    let r ← munchDigits1 r
    let r ← munchDot r
    let _ ← munchDigits1 r
    pure ()).isSome

/-- `get_release_config_version` (release_manager.py:162): tokens matching
the version pattern are returned unchanged; otherwise the most recent
config version is computed from the bucket and bumped according to the
token, and any other token raises `ValueError`.  Note the Python performs
the in-place bumps `last_version[i] = …` which raise `IndexError` when the
computed triple is shorter than needed. -/
def get_release_config_version (keys : List Str) (version : Str) : Except String Str :=
  if re_match_vernum version then .ok version
  else do
    let last_version ← get_most_recent_config keys
    let bumped ←
      if version = str "major" then
        match last_version with
        | a :: _ :: _ :: rest => .ok ((a + 1) :: 0 :: 0 :: rest)
        | _ => .error "IndexError: list assignment index out of range"
      else if version = str "minor" then
        match last_version with
        | a :: b :: _ :: rest => .ok (a :: (b + 1) :: 0 :: rest)
        | _ => .error "IndexError: list assignment index out of range"
      else if version = str "patch" then
        match last_version with
        | a :: b :: c :: rest => .ok (a :: b :: (c + 1) :: rest)
        | _ => .error "IndexError: list assignment index out of range"
      else
        .error "ValueError: `version` must be one of \"major\", \"minor\", \"patch\", or match \"X.Y.Z\""
    .ok (List.intercalate (str ".") (bumped.map intStr))

/-! ## Manifest data model (spec section 3; release_manager.py:26, 337) -/

/-- One entry of a manifest's `files` list.  The optional compressed
fields `zsize`/`zurl` model the presence or absence of those dict keys. -/
structure FileEntry where
  name : Str
  size : Nat
  ftype : Option Str
  url : Str
  version : Nat
  zsize : Option Nat
  zurl : Option Str
deriving DecidableEq, Repr

/-- A manifest ("config") document. -/
structure Config where
  files : List FileEntry
  lastUpdatedAt : Nat
deriving DecidableEq, Repr

/-- `build_empty_config` (release_manager.py:26). -/
def build_empty_config (now : Nat) : Config := { files := [], lastUpdatedAt := now }

/-- An entry of the in-memory `existing_configs` dict
(release_manager.py:352): parsed content, bucket key and dirty flag. -/
structure ConfigDetails where
  content : Config
  key : Str
  updated : Bool
deriving DecidableEq, Repr

/-! ## The S3 model -/

/-- A stored object body: raw bytes, or a serialized JSON config (the
serialization/parse pair `json.dumps`/`json.loads` is modelled by this
constructor; `json.loads` of a body that is not a serialized config
raises). -/
inductive S3Body where
  | bytes (s : Str)
  | configJson (c : Config)
deriving DecidableEq, Repr

/-- The length in bytes of a stored body (`ContentLength`).  For a config
body, the length of its canonical JSON dump. -/
def S3Body.len : S3Body → Nat
  | .bytes s => s.length
  | .configJson c => 64 + 96 * c.files.length

/-- A stored S3 object with the metadata this script reads and writes. -/
structure S3Object where
  body : S3Body
  metaVersion : Option Nat
  contentType : Str
  contentEncoding : Option Str
  versionId : Nat
deriving DecidableEq, Repr

/-- The remote store: named bucket, listing (association list in listing
order), and the next store-assigned version id. -/
structure Bucket where
  name : Str
  objects : List (Str × S3Object)
  nextVid : Nat
deriving DecidableEq, Repr

/-- Replace the value at the first occurrence of `k` in place, else append
`(k, v)` (Python dict update order semantics, and the in-place overwrite /
append behaviour of the bucket listing). -/
def upsertKeep : List (Str × α) → Str → α → List (Str × α)
  | [], k, v => [(k, v)]
  | (k', v') :: rest, k, v =>
    if k' = k then (k, v) :: rest else (k', v') :: upsertKeep rest k v

/-- `bucket.put_object`: store a fresh object under `key` with a new
store-assigned version id. -/
def putObj (b : Bucket) (key : Str) (body : S3Body) (contentType : Str)
    (metaVersion : Nat) (contentEncoding : Option Str) : Bucket :=
  { b with
    objects := upsertKeep b.objects key
      { body := body, metaVersion := some metaVersion, contentType := contentType,
        contentEncoding := contentEncoding, versionId := b.nextVid }
    nextVid := b.nextVid + 1 }

/-- `S3.Object(bucket, key).get()`: `none` models the store's missing-key
error. -/
def getObj (b : Bucket) (key : Str) : Option S3Object := b.objects.lookup key

/-! ## `update_asset` (release_manager.py:196) -/

/-- The `asset` dict built by `update_asset` (release_manager.py:290):
size/url/version of the stored base object, plus the compressed sibling's
fields when one was handled. -/
structure AssetDetails where
  size : Nat
  url : Str
  version : Nat
  zsize : Option Nat
  zurl : Option Str
deriving DecidableEq, Repr

/-- The content-type table of `update_asset` (release_manager.py:257-266):
default JSON, overridden for recognised image suffixes and for text. -/
def asset_content_type (name : Str) (asset_type : Option Str) : Str :=
  if asset_type = some (str "image") then
    if takeLast 3 name = str "png" then str "image/png"
    else if takeLast 3 name = str "jpg" then str "image/jpeg"
    else if takeLast 3 name = str "gif" then str "image/gif"
    else str "application/json; charset=utf-8"
  else if asset_type = some (str "text") then str "text/plain; charset=utf-8"
  else str "application/json; charset=utf-8"

/-- The URL built for the base object (release_manager.py:283). -/
def asset_url (region bucketName name : Str) (vid : Nat) : Str :=
  str "https://s3." ++ region ++ str ".amazonaws.com/" ++ bucketName ++
    str "/assets" ++ name ++ str "?versionId=" ++ natStr vid

/-- The URL built for the compressed sibling (release_manager.py:307). -/
def asset_zurl (region bucketName name : Str) (vid : Nat) : Str :=
  str "https://s3." ++ region ++ str ".amazonaws.com/" ++ bucketName ++
    str "/assets" ++ name ++ str ".gz?versionId=" ++ natStr vid

/-- The body of the `compatible` rewrite loop for one manifest file entry
(release_manager.py:318-330): entries whose name matches and whose version
is exactly one less than the (re-fetched) upload version get their
size/url/version rewritten; compressed fields are touched only when the
entry already has a `zsize` key.  Returns the new entry and whether it was
rewritten. -/
def patch_file_entry (name : Str) (version : Nat) (asset : AssetDetails)
    (file : FileEntry) : FileEntry × Bool :=
  if file.name ≠ name ∨ (file.version : Int) ≠ (version : Int) - 1 then (file, false)
  else
    let f := { file with size := asset.size, url := asset.url, version := version }
    let f :=
      if file.zsize.isSome then
        if asset.zsize.isSome then { f with zsize := asset.zsize, zurl := asset.zurl }
        else { f with zsize := none, zurl := none }
      else f
    (f, true)

/-- The `compatible` rewrite of one existing config
(release_manager.py:315-333): rewrite every matching file entry; if any
matched, mark the config `updated` and refresh `lastUpdatedAt`. -/
def patch_config (name : Str) (version : Nat) (asset : AssetDetails) (now : Nat)
    (cd : ConfigDetails) : ConfigDetails :=
  let patched := cd.content.files.map (patch_file_entry name version asset)
  let files := patched.map Prod.fst
  if patched.any Prod.snd then
    { cd with updated := true, content := { files := files, lastUpdatedAt := now } }
  else
    { cd with content := { cd.content with files := files } }

/-- The result of one `update_asset` call: the bucket after any uploads,
the (possibly patched) configs, the returned `asset` dict, and the keys
put to the store during the call. -/
structure UpdateResult where
  bucket : Bucket
  configs : List (Str × ConfigDetails)
  asset : AssetDetails
  puts : List Str
deriving DecidableEq, Repr

/-- `update_asset` (release_manager.py:196): optionally upload the content
(and compressed sibling) under `assets<name>`, re-fetch the stored object
to build the returned size/url/version, and, in `compatible` mode, rewrite
matching file entries of every existing config in place.  Note the Python
rebinds `version` from the re-fetched object's metadata at line 282, while
the gzip upload at line 299 still tags the original `version` argument via
`object_kwargs`. -/
def update_asset (bucket : Bucket) (name : Str) (asset_type : Option Str)
    (content : Str) (version : Nat) (zcontent : Option Str) (compatible : Bool)
    (configs : List (Str × ConfigDetails)) (upload_file : Bool)
    (region : Str) (now : Nat) : Except String UpdateResult := do
  let content_type := asset_content_type name asset_type
  let key := str "assets" ++ name
  let zkey := str "assets" ++ name ++ str ".gz"
  let b1 := if upload_file then putObj bucket key (.bytes content) content_type version none
            else bucket
  let puts1 : List Str := if upload_file then [key] else []
  let some base_object := getObj b1 key
    | .error "NoSuchKey: the asset object does not exist"
  let size := base_object.body.len
  let some fetched_version := base_object.metaVersion
    | .error "KeyError: version"
  let url := asset_url region bucket.name name base_object.versionId
  let asset1 : AssetDetails :=
    { size := size, url := url, version := fetched_version, zsize := none, zurl := none }
  let (b2, puts2, asset2) ←
    if pyTruthy zcontent then do
      let zc := zcontent.getD []
      let b2 := if upload_file then putObj b1 zkey (.bytes zc) content_type version (some (str "gzip"))
                else b1
      let puts2 := if upload_file then puts1 ++ [zkey] else puts1
      let some zipped_object := getObj b2 zkey
        | .error "NoSuchKey: the zipped asset object does not exist"
      let zurl := asset_zurl region bucket.name name zipped_object.versionId
      .ok (b2, puts2, { asset1 with zsize := some zipped_object.body.len, zurl := some zurl })
    else
      .ok (b1, puts1, asset1)
  let configs2 :=
    if compatible then
      configs.map fun kc => (kc.1, patch_config name fetched_version asset2 now kc.2)
    else configs
  .ok { bucket := b2, configs := configs2, asset := asset2, puts := puts2 }

/-! ## `parse_existing_config` / `parse_existing_asset` / the listing loop
(release_manager.py:337, 360, 425-432) -/

/-- An entry of the in-memory `existing_assets` dict
(release_manager.py:380): raw content, `version` metadata (kept as the
number it is later converted to with `int`), store version id and
compressed-sibling flag.  `parse_existing_asset` raises `KeyError` when
the `version` metadata is missing, so parsed records always carry one. -/
structure ExistingAsset where
  content : S3Body
  version : Nat
  versionId : Nat
  zipped : Bool
deriving DecidableEq, Repr

/-- `parse_existing_config` (release_manager.py:337): fetch and
`json.loads` the body, and store it keyed by the full object key. -/
def parse_existing_config (key : Str) (obj : S3Object)
    (existing_configs : List (Str × ConfigDetails)) :
    Except String (List (Str × ConfigDetails)) :=
  match obj.body with
  | .configJson c =>
    .ok (upsertKeep existing_configs key { content := c, key := key, updated := false })
  | .bytes _ => .error "json.JSONDecodeError: config body is not valid JSON"

/-- `parse_existing_asset` (release_manager.py:360): keys are stripped to
`key[6:]` (keeping the leading `/`); a `.gz` key marks the already-seen
base record as zipped — the lookup is unguarded and raises `KeyError` when
the base record has not been seen yet; other keys create a fresh record
(raising `KeyError` when the `version` metadata is absent). -/
def parse_existing_asset (key : Str) (obj : S3Object)
    (existing_assets : List (Str × ExistingAsset)) :
    Except String (List (Str × ExistingAsset)) :=
  let item_key := key.drop 6
  if takeLast 3 item_key = str ".gz" then
    let base := dropLast' 3 item_key
    match existing_assets.lookup base with
    | none => .error "KeyError: compressed sibling listed before its base asset"
    | some a => .ok (upsertKeep existing_assets base { a with zipped := true })
  else
    match obj.metaVersion with
    | none => .error "KeyError: version"
    | some v =>
      .ok (upsertKeep existing_assets item_key
        { content := obj.body, version := v, versionId := obj.versionId, zipped := false })

/-- The classification of one listed object (release_manager.py:428-432):
`config/`-prefixed keys (with nonempty suffix) are configs, `assets/`-
prefixed keys (with nonempty suffix) are assets, anything else is
ignored. -/
def classify_item (st : List (Str × ConfigDetails) × List (Str × ExistingAsset))
    (item : Str × S3Object) :
    Except String (List (Str × ConfigDetails) × List (Str × ExistingAsset)) :=
  if item.1.take 7 = str "config/" ∧ item.1.length > 7 then do
    let cfgs ← parse_existing_config item.1 item.2 st.1
    .ok (cfgs, st.2)
  else if item.1.take 7 = str "assets/" ∧ item.1.length > 7 then do
    let as' ← parse_existing_asset item.1 item.2 st.2
    .ok (st.1, as')
  else
    .ok st

/-- The full listing loop of `update_changed_assets`
(release_manager.py:425-432), reconstructing the existing configs and
assets from the bucket listing. -/
def parse_bucket_objects (objects : List (Str × S3Object)) :
    Except String (List (Str × ConfigDetails) × List (Str × ExistingAsset)) :=
  objects.foldlM classify_item ([], [])

/-! ## `update_changed_assets` (release_manager.py:389) -/

/-- The result of a reconciliation run: final bucket, the
`updated_assets` dict, the (possibly patched) configs, and all keys put to
the store. -/
structure RunResult where
  bucket : Bucket
  updated_assets : List (Str × FileEntry)
  configs : List (Str × ConfigDetails)
  puts : List Str
deriving DecidableEq, Repr

/-- The body of the per-asset loop of `update_changed_assets`
(release_manager.py:440-487).  The local directory (the minified output
directory the Python walks and reads) is modelled as an association list
of filename to content; the compressed sibling of `n` is the entry named
`n.gz`. -/
def process_asset (region : Str) (now : Nat) (compatible : Bool)
    (localDir : List (Str × Str)) (existing_assets : List (Str × ExistingAsset))
    (st : Bucket × List (Str × ConfigDetails) × List (Str × FileEntry) × List Str)
    (asset : Str × Str) :
    Except String (Bucket × List (Str × ConfigDetails) × List (Str × FileEntry) × List Str) := do
  let (bucket, configs, updated_assets, puts) := st
  let asset_name := asset.1
  let slash_asset_name := str "/" ++ asset_name
  let asset_type := get_asset_type asset_name
  if takeLast 3 asset_name = str ".gz" then
    .ok st
  else
    let asset_content := asset.2
    let asset_zcontent := localDir.lookup (asset_name ++ str ".gz")
    let (last_version, upload_file) :=
      match existing_assets.lookup slash_asset_name with
      | none => (0, true)
      | some ea =>
        if ea.content = S3Body.bytes asset_content then (0, false)
        else (ea.version, true)
    let r ← update_asset bucket slash_asset_name asset_type asset_content
      (last_version + 1) asset_zcontent compatible configs upload_file region now
    let built_asset : FileEntry :=
      { name := slash_asset_name, size := r.asset.size, ftype := asset_type,
        url := r.asset.url, version := r.asset.version,
        zsize := if r.asset.zurl.isSome ∧ r.asset.zsize.isSome then r.asset.zsize else none,
        zurl := if r.asset.zurl.isSome ∧ r.asset.zsize.isSome then r.asset.zurl else none }
    .ok (r.bucket, r.configs, upsertKeep updated_assets slash_asset_name built_asset,
      puts ++ r.puts)

/-- `update_changed_assets` (release_manager.py:389), starting after the
minification step: reconstruct the remote state from the listing, filter
the local assets by the optional `only` set, and run the per-asset loop.
`localDir` stands for the scanned output directory: filename/content
pairs in scan order. -/
def update_changed_assets (bucket : Bucket) (localDir : List (Str × Str))
    (only : Option (List Str)) (compatible : Bool) (region : Str) (now : Nat) :
    Except String RunResult := do
  let (existing_configs, existing_assets) ← parse_bucket_objects bucket.objects
  let assets := localDir.filter fun a =>
    match only with
    | none => true
    | some names => names.contains (str "/" ++ a.1)
  let (b, cfgs, ua, puts) ← assets.foldlM
    (process_asset region now compatible localDir existing_assets)
    (bucket, existing_configs, [], [])
  .ok { bucket := b, updated_assets := ua, configs := cfgs, puts := puts }

/-! ## `build_release_config` / `update_changed_configs`
(release_manager.py:492, 524) -/

/-- `build_release_config` (release_manager.py:492): a fresh config
listing every updated asset, keyed `config/<version>.json`, marked
updated. -/
def build_release_config (assets : List (Str × FileEntry)) (version : Str) (now : Nat) :
    Str × ConfigDetails :=
  let config : Config := { files := assets.map Prod.snd, lastUpdatedAt := now }
  let config_key := str "config/" ++ version ++ str ".json"
  (config_key, { content := config, key := config_key, updated := true })

/-- `update_changed_configs` (release_manager.py:524): put every config
marked `updated` back under its key (serialized; version metadata and
content-type are not set on config puts). -/
def update_changed_configs (bucket : Bucket) (configs : List (Str × ConfigDetails)) : Bucket :=
  configs.foldl
    (fun b kc =>
      if kc.2.updated then
        { b with
          objects := upsertKeep b.objects kc.2.key
            { body := .configJson kc.2.content, metaVersion := none,
              contentType := [], contentEncoding := none, versionId := b.nextVid }
          nextVid := b.nextVid + 1 }
      else b)
    bucket

/-! ## `build_dev_config` (release_manager.py:85) -/

/-- The `http://localhost:8080/{type}/{name}` URL of the dev config;
Python formats `None` as the string `None`. -/
def dev_url (asset_type : Option Str) (name : Str) : Str :=
  str "http://localhost:8080/" ++ (match asset_type with
    | some t => t
    | none => str "None") ++ str "/" ++ name

/-- The config value accumulated by the loop of `build_dev_config`
(release_manager.py:109-129); `getsize` and `exists_gz` stand for
`os.path.getsize` and `os.path.exists` on the local filesystem. -/
def build_dev_config_value (asset_dir : Str) (tree : FsDir)
    (getsize : Str → Nat) (exists_gz : Str → Bool) (now : Nat) : Config :=
  let assets := get_all_assets asset_dir tree
  { files := assets.map fun asset =>
      let asset_folder := asset.1
      let asset_name := asset.2
      let asset_type := get_asset_type asset_name
      let gz_path := pathJoin asset_folder (asset_name ++ str ".gz")
      let zexists := exists_gz gz_path
      { name := str "/" ++ asset_name,
        size := getsize (pathJoin asset_folder asset_name),
        ftype := asset_type,
        url := dev_url asset_type asset_name,
        version := 1,
        zsize := if zexists then some (getsize gz_path) else none,
        zurl := if zexists then some (dev_url asset_type (asset_name ++ str ".gz")) else none }
    lastUpdatedAt := now }

/-- Every name bound in the module scope of `release_manager.py` when
`build_dev_config` runs on the `--dev` path (imports, module-level
constants and functions, and the `--dev` CLI constants assigned before the
call). -/
def release_manager_module_names : List String :=
  ["json", "os", "re", "shutil", "subprocess", "sys", "time", "boto3",
   "ASSET_TYPES", "build_empty_config", "get_all_assets", "get_asset_type",
   "build_dev_config", "get_most_recent_config", "get_release_config_version",
   "update_asset", "parse_existing_config", "parse_existing_asset",
   "update_changed_assets", "build_release_config", "update_changed_configs",
   "DEV_ASSET_DIR", "DEV_OUTPUT_DIR", "DEV_FILENAME"]

/-- Every local name bound inside `build_dev_config` by the time the
`json.dump` call at release_manager.py:133 runs. -/
def build_dev_config_local_names : List String :=
  ["asset_dir", "output_dir", "filename", "assets", "config", "asset",
   "asset_folder", "asset_name", "asset_type", "asset_zurl_exists", "file",
   "config_file"]

/-- The serialization step of `build_dev_config` (release_manager.py:133)
names the variable `config_json`; Python resolves the first argument of
`json.dump(config_json, file, …)` against the local then module scope
before anything is written. -/
def dev_dump_argument_name : String := "config_json"

/-- `build_dev_config` (release_manager.py:85): scan the assets, create
the output directory, build the config dict, then serialize.  The
serialization step looks up `config_json`, which is bound in neither
scope, so the call raises `NameError` and the list of content writes
performed on the output file stays empty.  Returns (created directories,
content writes to the output file) next to the outcome. -/
def build_dev_config (asset_dir : Str) (tree : FsDir) (getsize : Str → Nat)
    (exists_gz : Str → Bool) (output_dir filename : Str) (now : Nat) :
    (List Str × List (Str × Config)) × Except String Unit :=
  let created := [output_dir]
  let _config := build_dev_config_value asset_dir tree getsize exists_gz now
  if dev_dump_argument_name ∈ build_dev_config_local_names ++ release_manager_module_names then
    (⟨created, [(pathJoin output_dir filename, _config)]⟩, .ok ())
  else
    (⟨created, []⟩, .error "NameError: name config_json is not defined")

/-! ## Concrete inputs and expected outputs used by the claim theorems -/

/-- The stale file entry (version one behind the remote asset) of the C1
counterexample manifest. -/
def C1_entry : FileEntry :=
  { name := str "/a.json", size := 5, ftype := some (str "json"), url := str "u0",
    version := 1, zsize := none, zurl := none }

/-- The C1 counterexample manifest as parsed from the store. -/
def C1_original_details : ConfigDetails :=
  { content := { files := [C1_entry], lastUpdatedAt := 50 },
    key := str "config/1.0.0.json", updated := false }

/-- The C1 counterexample store: one manifest holding `C1_entry`, and the
asset `/a.json` at version 2 whose remote content equals the local
content. -/
def C1_bucket : Bucket :=
  { name := str "bkt",
    objects := [
      (str "config/1.0.0.json",
        { body := .configJson { files := [C1_entry], lastUpdatedAt := 50 },
          metaVersion := none, contentType := [], contentEncoding := none, versionId := 0 }),
      (str "assets/a.json",
        { body := .bytes (str "X"), metaVersion := some 2,
          contentType := str "application/json; charset=utf-8", contentEncoding := none,
          versionId := 1 })],
    nextVid := 2 }

/-- The C6 scenario manifest entry: `/a.json` at version 3. -/
def C6_entry : FileEntry :=
  { name := str "/a.json", size := 5, ftype := some (str "json"), url := str "u0",
    version := 3, zsize := none, zurl := none }

/-- The C6 scenario store: manifest `1.0.0` holding `/a.json` version 3,
and the remote asset at version 3 with content differing from the local
content. -/
def C6_bucket : Bucket :=
  { name := str "bkt",
    objects := [
      (str "config/1.0.0.json",
        { body := .configJson { files := [C6_entry], lastUpdatedAt := 50 },
          metaVersion := none, contentType := [], contentEncoding := none, versionId := 0 }),
      (str "assets/a.json",
        { body := .bytes (str "OLD"), metaVersion := some 3,
          contentType := str "application/json; charset=utf-8", contentEncoding := none,
          versionId := 1 })],
    nextVid := 2 }

/-- The C4 counterexample manifest entry: matches the upload (`/a` at
version 3 = 4 - 1) but carries no compressed fields. -/
def C4_entry : FileEntry :=
  { name := str "/a", size := 7, ftype := none, url := str "u0",
    version := 3, zsize := none, zurl := none }

/-- The C4 counterexample configs dict. -/
def C4_configs : List (Str × ConfigDetails) :=
  [(str "config/1.0.0.json",
    { content := { files := [C4_entry], lastUpdatedAt := 5 },
      key := str "config/1.0.0.json", updated := false })]

/-- The configs dict passed to `update_asset` in the C1 witness call. -/
def C1_cfgs : List (Str × ConfigDetails) := [(str "config/1.0.0.json", C1_original_details)]

/-- The result of the C1 witness call of `update_asset` (no upload, yet the
config was rewritten to version 2 and marked updated). -/
def C1u_expected : UpdateResult :=
  { bucket := C1_bucket,
    configs := [
      (str "config/1.0.0.json",
        { content :=
            { files := [
                { name := str "/a.json", size := 1, ftype := some (str "json"),
                  url := str "https://s3.ca.amazonaws.com/bkt/assets/a.json?versionId=1",
                  version := 2, zsize := none, zurl := none }],
              lastUpdatedAt := 99 },
          key := str "config/1.0.0.json", updated := true })],
    asset :=
      { size := 1,
        url := str "https://s3.ca.amazonaws.com/bkt/assets/a.json?versionId=1",
        version := 2, zsize := none, zurl := none },
    puts := [] }

/-- The asset details used by the C4 witness. -/
def C4_asset : AssetDetails :=
  { size := 9, url := str "u", version := 4, zsize := some 2, zurl := some (str "zu") }

/-- The empty store of the C4 counterexample call. -/
def C4_bucket : Bucket := { name := str "bkt", objects := [], nextVid := 0 }

/-- The entry of `C4_configs` after the C4 counterexample call: rewritten
to the new version/size/url but still with no compressed fields. -/
def C4_patched_entry : FileEntry :=
  { name := str "/a", size := 2, ftype := none,
    url := str "https://s3.ca.amazonaws.com/bkt/assets/a?versionId=0",
    version := 4, zsize := none, zurl := none }

/-- The full result of the C4 counterexample call of `update_asset`. -/
def C4_expected : UpdateResult :=
  { bucket :=
      { name := str "bkt",
        objects := [
          (str "assets/a",
            { body := .bytes (str "YY"), metaVersion := some 4,
              contentType := str "application/json; charset=utf-8",
              contentEncoding := none, versionId := 0 }),
          (str "assets/a.gz",
            { body := .bytes (str "ZZ"), metaVersion := some 4,
              contentType := str "application/json; charset=utf-8",
              contentEncoding := some (str "gzip"), versionId := 1 })],
        nextVid := 2 },
    configs := [
      (str "config/1.0.0.json",
        { content := { files := [C4_patched_entry], lastUpdatedAt := 77 },
          key := str "config/1.0.0.json", updated := true })],
    asset :=
      { size := 2, url := str "https://s3.ca.amazonaws.com/bkt/assets/a?versionId=0",
        version := 4, zsize := some 2,
        zurl := some (str "https://s3.ca.amazonaws.com/bkt/assets/a.gz?versionId=1") },
    puts := [str "assets/a", str "assets/a.gz"] }

/-- The invalid-argument failure of `get_release_config_version`
(release_manager.py:190). -/
def invalid_version_msg : String :=
  "ValueError: `version` must be one of \"major\", \"minor\", \"patch\", or match \"X.Y.Z\""

/-- A `config/…` key whose version segment parses cleanly into exactly
three integers, so that `get_most_recent_config` cannot raise on it
(non-`config/` keys are skipped and are always fine). -/
def configKeyOK (k : Str) : Bool :=
  if k.take 7 = str "config/" ∧ k.length > 7 then
    match parseConfigKeyVersion k with
    | .ok v => v.length = 3
    | .error _ => false
  else true

/-- Every key of the listing is well formed for the version scan. -/
def wellFormedConfigKeys (keys : List Str) : Bool := keys.all configKeyOK

/-- A listing key that `update_changed_assets` treats as a config
(release_manager.py:429). -/
def isConfigItemKey (k : Str) : Bool := decide (k.take 7 = str "config/" ∧ k.length > 7)

/-- A listing key that `update_changed_assets` treats as an asset
(release_manager.py:431). -/
def isAssetItemKey (k : Str) : Bool := decide (k.take 7 = str "assets/" ∧ k.length > 7)

/-- An asset key carrying the compressed-file suffix
(release_manager.py:374). -/
def isGzAssetItemKey (k : Str) : Bool :=
  isAssetItemKey k && decide (takeLast 3 (k.drop 6) = str ".gz")

/-- An asset key without the compressed-file suffix: the only kind that
creates a record in `existing_assets`. -/
def isPlainAssetItemKey (k : Str) : Bool :=
  isAssetItemKey k && !decide (takeLast 3 (k.drop 6) = str ".gz")

/-- The `existing_assets` key of the base record a compressed-suffix key
refers to (release_manager.py:375). -/
def gzBase (k : Str) : Str := dropLast' 3 (k.drop 6)

/-- The ordering precondition of `parse_existing_asset`: walking the
listing with `seen` the set of asset-record names created so far, every
compressed-suffix key refers to an already-created base record (i.e. its
base appeared earlier as a plain asset key). -/
def gzSafeFrom (seen : List Str) : List (Str × S3Object) → Bool
  | [] => true
  | (k, _) :: rest =>
    (!isGzAssetItemKey k || seen.contains (gzBase k)) &&
      gzSafeFrom (if isPlainAssetItemKey k then k.drop 6 :: seen else seen) rest

/-- Every config item of the listing has a JSON-decodable body. -/
def configBodiesOK (objs : List (Str × S3Object)) : Bool :=
  objs.all fun p => !isConfigItemKey p.1 ||
    (match p.2.body with
     | .configJson _ => true
     | .bytes _ => false)

/-- Every plain asset item of the listing carries `version` metadata. -/
def plainMetasOK (objs : List (Str × S3Object)) : Bool :=
  objs.all fun p => !isPlainAssetItemKey p.1 || p.2.metaVersion.isSome

/-- The fields of a parsed asset record that mirror the stored object
(everything except the `zipped` marker). -/
def assetFields : Option ExistingAsset → Option (S3Body × Nat × Nat)
  | none => none
  | some ea => some (ea.content, ea.version, ea.versionId)

/-- All three conditions under which the listing loop succeeds. -/
def parsePrecondsOK (objs : List (Str × S3Object)) : Bool :=
  configBodiesOK objs && plainMetasOK objs && gzSafeFrom [] objs

/-- The set of asset-record names created by the plain asset items of a
listing, threaded left to right (the `seen` set of `gzSafeFrom` after the
whole listing). -/
def gzSeenAfter (seen : List Str) : List (Str × S3Object) → List Str
  | [] => seen
  | (k, _) :: rest =>
    gzSeenAfter (if isPlainAssetItemKey k then k.drop 6 :: seen else seen) rest

/-- A plain stored asset object used by the C7 witness listing. -/
def C7_obj_plain : S3Object :=
  { body := .bytes (str "B"), metaVersion := some 1, contentType := [],
    contentEncoding := none, versionId := 0 }

/-- A compressed stored asset object used by the C7 witness listing. -/
def C7_obj_gz : S3Object :=
  { body := .bytes (str "Z"), metaVersion := none, contentType := [],
    contentEncoding := some (str "gzip"), versionId := 1 }

/-- A listing in which the compressed key follows its base asset key. -/
def C7_good_listing : List (Str × S3Object) :=
  [(str "assets/x", C7_obj_plain), (str "assets/x.gz", C7_obj_gz)]

/-- A compressed-suffix item whose base asset key has not been listed. -/
def C7_bad_item : Str × S3Object := (str "assets/y.gz", C7_obj_gz)

/-- A store and local directory for exercising the version-monotonicity
theorem on a fresh asset. -/
def C8_bucket : Bucket := { name := str "bkt", objects := [], nextVid := 0 }

def C8_localDir : List (Str × Str) := [(str "a", str "xy")]

def C8_entry : FileEntry :=
  { name := str "/a", size := 2, ftype := none,
    url := str "https://s3.r.amazonaws.com/bkt/assets/a?versionId=0",
    version := 1, zsize := none, zurl := none }

def C8_res : RunResult :=
  { bucket :=
      { name := str "bkt"
        objects := [(str "assets/a",
          { body := S3Body.bytes (str "xy"), metaVersion := some 1,
            contentType := str "application/json; charset=utf-8",
            contentEncoding := none, versionId := 0 })]
        nextVid := 1 }
    updated_assets := [(str "/a", C8_entry)]
    configs := []
    puts := [str "assets/a"] }

/-- A store, local directory (with a compressed sibling), and the two run
results for exercising the idempotence theorem. -/
def C3_bucket : Bucket := { name := str "bkt", objects := [], nextVid := 0 }

def C3_localDir : List (Str × Str) := [(str "a", str "xy"), (str "a.gz", str "z")]

def C3_store : List (Str × S3Object) :=
  [(str "assets/a",
    { body := S3Body.bytes (str "xy"), metaVersion := some 1,
      contentType := str "application/json; charset=utf-8",
      contentEncoding := none, versionId := 0 }),
   (str "assets/a.gz",
    { body := S3Body.bytes (str "z"), metaVersion := some 1,
      contentType := str "application/json; charset=utf-8",
      contentEncoding := some (str "gzip"), versionId := 1 })]

def C3_entry : FileEntry :=
  { name := str "/a", size := 2, ftype := none,
    url := str "https://s3.r.amazonaws.com/bkt/assets/a?versionId=0",
    version := 1, zsize := some 1,
    zurl := some (str "https://s3.r.amazonaws.com/bkt/assets/a.gz?versionId=1") }

def C3_res1 : RunResult :=
  { bucket := { name := str "bkt", objects := C3_store, nextVid := 2 }
    updated_assets := [(str "/a", C3_entry)]
    configs := []
    puts := [str "assets/a", str "assets/a.gz"] }

def C3_res2 : RunResult :=
  { bucket := { name := str "bkt", objects := C3_store, nextVid := 2 }
    updated_assets := [(str "/a", C3_entry)]
    configs := []
    puts := [] }

/-! # Theorems -/

/-! ## C2 — `get_most_recent_config` is order-dependent, not a tuple max -/

/-- C2 (code bug evidence): with the spec's manifest keys listed in the
order 0.9.0, 1.0.0, 0.12.0, the resolver bumps `major` to "1.0.0", not the
"2.0.0" that numeric tuple comparison (and the function's own docstring,
"find the most recent config file version") requires: the comparison loop
adopted [0, 12, 0] over [1, 0, 0] because 12 > 0 in the second component.
A different listing order of the same keys does yield "2.0.0". -/
theorem C2_order_dependent_eval :
    get_release_config_version
        [str "config/0.9.0.json", str "config/1.0.0.json", str "config/0.12.0.json"]
        (str "major") = .ok (str "1.0.0") ∧
      get_most_recent_config
        [str "config/0.9.0.json", str "config/1.0.0.json", str "config/0.12.0.json"] =
        .ok [0, 12, 0] ∧
      get_release_config_version
        [str "config/0.9.0.json", str "config/0.12.0.json", str "config/1.0.0.json"]
        (str "major") = .ok (str "2.0.0") := by
  refine ⟨?_, ?_, ?_⟩ <;> decide

/-! ## C6 — the compatibility patch scenario -/

/-- C6: with manifest `1.0.0` holding `/a.json` at version 3 and changed
local content, reconciling with `compatible = true` uploads exactly
`assets/a.json`, returns the asset at version 4 with the new size 3 and
the new store URL, and rewrites the manifest's entry to version 4 with the
new size/url, marking it updated and refreshing `lastUpdatedAt`. -/
theorem C6_compat_patch_scenario :
    update_changed_assets C6_bucket [(str "a.json", str "NEW")] none true (str "ca") 99 =
      .ok
        { bucket :=
            { name := str "bkt",
              objects := [
                (str "config/1.0.0.json",
                  { body := .configJson { files := [C6_entry], lastUpdatedAt := 50 },
                    metaVersion := none, contentType := [], contentEncoding := none,
                    versionId := 0 }),
                (str "assets/a.json",
                  { body := .bytes (str "NEW"), metaVersion := some 4,
                    contentType := str "application/json; charset=utf-8",
                    contentEncoding := none, versionId := 2 })],
              nextVid := 3 },
          updated_assets := [
            (str "/a.json",
              { name := str "/a.json", size := 3, ftype := some (str "json"),
                url := str "https://s3.ca.amazonaws.com/bkt/assets/a.json?versionId=2",
                version := 4, zsize := none, zurl := none })],
          configs := [
            (str "config/1.0.0.json",
              { content :=
                  { files := [
                      { name := str "/a.json", size := 3, ftype := some (str "json"),
                        url := str "https://s3.ca.amazonaws.com/bkt/assets/a.json?versionId=2",
                        version := 4, zsize := none, zurl := none }],
                    lastUpdatedAt := 99 },
                key := str "config/1.0.0.json", updated := true })],
          puts := [str "assets/a.json"] } := by
  decide

/-! ## Shared helper lemmas -/

/-- Mapping a function over a list returns the same list iff the function
fixes every element. -/
theorem list_map_eq_self {α : Type} {f : α → α} : ∀ {l : List α},
    l.map f = l ↔ ∀ x ∈ l, f x = x := by
  intro l
  induction l with
  | nil => simp
  | cons a l ih => simp [ih]

/-- An unmatched file entry is returned untouched and unflagged by the
compatible rewrite. -/
theorem patch_file_entry_unmatched {name : Str} {version : Nat} {asset : AssetDetails}
    {f : FileEntry} (h : ¬(f.name = name ∧ (f.version : Int) = (version : Int) - 1)) :
    patch_file_entry name version asset f = (f, false) := by
  unfold patch_file_entry
  rw [if_pos]
  rcases not_and_or.mp h with h' | h'
  · exact Or.inl h'
  · exact Or.inr h'

/-- A matched file entry is flagged and rewritten to the fetched version. -/
theorem patch_file_entry_matched {name : Str} {version : Nat} {asset : AssetDetails}
    {f : FileEntry} (h : f.name = name ∧ (f.version : Int) = (version : Int) - 1) :
    (patch_file_entry name version asset f).2 = true ∧
      (patch_file_entry name version asset f).1.version = version := by
  unfold patch_file_entry
  rw [if_neg]
  · dsimp only
    constructor
    · cases hz : f.zsize.isSome <;> simp [hz]
    · cases hz : f.zsize.isSome <;> cases ha : asset.zsize.isSome <;> simp [hz, ha]
  · rw [not_or]
    exact ⟨not_not_intro h.1, not_not_intro h.2⟩

/-- A matched file entry has a version strictly below the fetched version,
so rewriting genuinely changes it. -/
theorem patch_file_entry_changes {name : Str} {version : Nat} {asset : AssetDetails}
    {f : FileEntry} (h : f.name = name ∧ (f.version : Int) = (version : Int) - 1) :
    (patch_file_entry name version asset f).1 ≠ f := by
  intro heq
  have hv := (@patch_file_entry_matched name version asset f h).2
  rw [heq] at hv
  have h2 := h.2
  rw [hv] at h2
  omega

/-- A config is left unchanged by the compatible rewrite iff none of its
file entries matches the uploaded name at the fetched version minus 1. -/
theorem patch_config_eq_self_iff {name : Str} {version : Nat} {asset : AssetDetails}
    {now : Nat} {cd : ConfigDetails} :
    patch_config name version asset now cd = cd ↔
      ∀ f ∈ cd.content.files, ¬(f.name = name ∧ (f.version : Int) = (version : Int) - 1) := by
  constructor
  · intro heq f hf hmatch
    unfold patch_config at heq
    by_cases hany :
        (cd.content.files.map (patch_file_entry name version asset)).any Prod.snd = true
    · rw [if_pos hany] at heq
      have hfiles :
          (cd.content.files.map (patch_file_entry name version asset)).map Prod.fst =
            cd.content.files := by
        have := congrArg (fun c => c.content.files) heq
        simpa using this
      rw [List.map_map] at hfiles
      have hfix := list_map_eq_self.mp hfiles f hf
      exact patch_file_entry_changes hmatch hfix
    · rw [Bool.not_eq_true] at hany
      have := (List.any_eq_false).mp hany (patch_file_entry name version asset f)
        (List.mem_map_of_mem _ hf)
      have hm := (@patch_file_entry_matched name version asset f hmatch).1
      rw [hm] at this
      exact this rfl
  · intro hnone
    unfold patch_config
    have hfix : ∀ f ∈ cd.content.files,
        patch_file_entry name version asset f = (f, false) := fun f hf =>
      patch_file_entry_unmatched (hnone f hf)
    have hany : (cd.content.files.map (patch_file_entry name version asset)).any Prod.snd
        = false := by
      rw [List.any_eq_false]
      intro p hp
      obtain ⟨f, hf, rfl⟩ := List.mem_map.mp hp
      rw [hfix f hf]
      simp
    rw [if_neg (by rw [hany]; exact Bool.false_ne_true)]
    have hfiles : (cd.content.files.map (patch_file_entry name version asset)).map Prod.fst
        = cd.content.files := by
      rw [List.map_map]
      exact list_map_eq_self.mpr fun f hf => by rw [Function.comp_apply, hfix f hf]
    rw [hfiles]

/-- Looking up the upserted key finds the new value. -/
theorem lookup_upsertKeep_self {α : Type} (l : List (Str × α)) (k : Str) (v : α) :
    (upsertKeep l k v).lookup k = some v := by
  induction l with
  | nil => simp [upsertKeep, List.lookup]
  | cons p rest ih =>
    unfold upsertKeep
    by_cases hk : p.1 = k
    · rw [if_pos hk]
      simp [List.lookup]
    · rw [if_neg hk]
      rw [List.lookup_cons]
      have : (k == p.1) = false := by
        simp only [beq_eq_false_iff_ne, ne_eq]
        exact fun hkk => hk hkk.symm
      rw [this]
      exact ih

/-- Looking up any other key is unaffected by an upsert. -/
theorem lookup_upsertKeep_ne {α : Type} (l : List (Str × α)) (k k' : Str) (v : α)
    (hne : k' ≠ k) : (upsertKeep l k v).lookup k' = l.lookup k' := by
  induction l with
  | nil =>
    simp only [upsertKeep, List.lookup]
    rw [show (k' == k) = false by simpa using hne]
  | cons p rest ih =>
    unfold upsertKeep
    by_cases hk : p.1 = k
    · rw [if_pos hk]
      rw [List.lookup_cons, List.lookup_cons]
      rw [show (k' == k) = false by simpa using hne, show (k' == p.1) = false by
        simp only [beq_eq_false_iff_ne, ne_eq]
        exact fun h => hne (h.trans hk)]
    · rw [if_neg hk]
      rw [List.lookup_cons, List.lookup_cons]
      cases hkp : (k' == p.1) with
      | true => rfl
      | false => exact ih

/-- `update_asset` with `upload_file = true` always succeeds, and its whole
result is determined by the inputs: the base object (and the compressed
sibling, when `zcontent` is truthy) are stored and re-read back. -/
theorem update_asset_upload_eq (bucket : Bucket) (name : Str) (asset_type : Option Str)
    (content : Str) (version : Nat) (zcontent : Option Str) (compatible : Bool)
    (configs : List (Str × ConfigDetails)) (region : Str) (now : Nat) :
    update_asset bucket name asset_type content version zcontent compatible configs
        true region now =
      (let ct := asset_content_type name asset_type
       let b1 := putObj bucket (str "assets" ++ name) (.bytes content) ct version none
       let asset1 : AssetDetails :=
         { size := content.length, url := asset_url region bucket.name name bucket.nextVid,
           version := version, zsize := none, zurl := none }
       if pyTruthy zcontent then
         let b2 := putObj b1 (str "assets" ++ name ++ str ".gz")
           (.bytes (zcontent.getD [])) ct version (some (str "gzip"))
         let asset2 : AssetDetails :=
           { asset1 with
             zsize := some (zcontent.getD []).length,
             zurl := some (asset_zurl region bucket.name name (bucket.nextVid + 1)) }
         .ok { bucket := b2,
               configs := if compatible then
                   configs.map fun kc => (kc.1, patch_config name version asset2 now kc.2)
                 else configs,
               asset := asset2,
               puts := [str "assets" ++ name, str "assets" ++ name ++ str ".gz"] }
       else
         .ok { bucket := b1,
               configs := if compatible then
                   configs.map fun kc => (kc.1, patch_config name version asset1 now kc.2)
                 else configs,
               asset := asset1,
               puts := [str "assets" ++ name] }) := by
  unfold update_asset
  simp only [if_true]
  rw [show getObj (putObj bucket (str "assets" ++ name) (.bytes content)
      (asset_content_type name asset_type) version none) (str "assets" ++ name) =
      some { body := .bytes content, metaVersion := some version,
             contentType := asset_content_type name asset_type, contentEncoding := none,
             versionId := bucket.nextVid } from lookup_upsertKeep_self _ _ _]
  cases hz : pyTruthy zcontent with
  | false =>
    simp only [Bool.false_eq_true, if_false]
    rfl
  | true =>
    simp only [if_true]
    rw [show getObj (putObj (putObj bucket (str "assets" ++ name) (.bytes content)
        (asset_content_type name asset_type) version none) (str "assets" ++ name ++ str ".gz")
        (.bytes (zcontent.getD [])) (asset_content_type name asset_type) version
        (some (str "gzip"))) (str "assets" ++ name ++ str ".gz") =
        some { body := .bytes (zcontent.getD []), metaVersion := some version,
               contentType := asset_content_type name asset_type,
               contentEncoding := some (str "gzip"), versionId := bucket.nextVid + 1 }
      from lookup_upsertKeep_self _ _ _]
    rfl

/-- `update_asset` with `upload_file = false`: nothing is put, the result
is read off the current store state (given that the base object exists and
carries version metadata). -/
theorem update_asset_noupload_eq (bucket : Bucket) (name : Str) (asset_type : Option Str)
    (content : Str) (version : Nat) (zcontent : Option Str) (compatible : Bool)
    (configs : List (Str × ConfigDetails)) (region : Str) (now : Nat)
    (base : S3Object) (fv : Nat)
    (hbase : getObj bucket (str "assets" ++ name) = some base)
    (hv : base.metaVersion = some fv) :
    update_asset bucket name asset_type content version zcontent compatible configs
        false region now =
      (let asset1 : AssetDetails :=
         { size := base.body.len, url := asset_url region bucket.name name base.versionId,
           version := fv, zsize := none, zurl := none }
       if pyTruthy zcontent then
         match getObj bucket (str "assets" ++ name ++ str ".gz") with
         | none => .error "NoSuchKey: the zipped asset object does not exist"
         | some zobj =>
           let asset2 : AssetDetails :=
             { asset1 with
               zsize := some zobj.body.len,
               zurl := some (asset_zurl region bucket.name name zobj.versionId) }
           .ok { bucket := bucket,
                 configs := if compatible then
                     configs.map fun kc => (kc.1, patch_config name fv asset2 now kc.2)
                   else configs,
                 asset := asset2,
                 puts := [] }
       else
         .ok { bucket := bucket,
               configs := if compatible then
                   configs.map fun kc => (kc.1, patch_config name fv asset1 now kc.2)
                 else configs,
               asset := asset1,
               puts := [] }) := by
  unfold update_asset
  simp only [Bool.false_eq_true, if_false, hbase, hv]
  cases hz : pyTruthy zcontent with
  | false => rfl
  | true =>
    simp only [if_true]
    cases hzo : getObj bucket (str "assets" ++ name ++ str ".gz") with
    | none => rfl
    | some zobj => rfl

/-- Inversion for a successful `update_asset` call with
`upload_file = false`: the base object was present with version
metadata. -/
theorem update_asset_noupload_inv {bucket : Bucket} {name : Str} {asset_type : Option Str}
    {content : Str} {version : Nat} {zcontent : Option Str} {compatible : Bool}
    {configs : List (Str × ConfigDetails)} {region : Str} {now : Nat} {r : UpdateResult}
    (h : update_asset bucket name asset_type content version zcontent compatible configs
        false region now = .ok r) :
    ∃ base fv, getObj bucket (str "assets" ++ name) = some base ∧
      base.metaVersion = some fv := by
  unfold update_asset at h
  simp only [Bool.false_eq_true, if_false] at h
  cases hbase : getObj bucket (str "assets" ++ name) with
  | none => simp only [hbase] at h; exact Except.noConfusion h
  | some base =>
    simp only [hbase] at h
    cases hv : base.metaVersion with
    | none => simp only [hv] at h; exact Except.noConfusion h
    | some fv => exact ⟨base, fv, rfl, hv⟩

/-- The whole configs dict is left unchanged by the compatible rewrite iff
no file entry of any config matches the uploaded name at the fetched
version minus 1. -/
theorem patch_configs_map_eq_self_iff {name : Str} {v : Nat} {a : AssetDetails} {now : Nat}
    {configs : List (Str × ConfigDetails)} :
    (configs.map fun kc => (kc.1, patch_config name v a now kc.2)) = configs ↔
      ∀ cd ∈ configs, ∀ f ∈ cd.2.content.files,
        ¬(f.name = name ∧ (f.version : Int) = (v : Int) - 1) := by
  rw [list_map_eq_self]
  constructor
  · intro hall cd hcd f hf
    have hcd2 : patch_config name v a now cd.2 = cd.2 := by
      have := hall cd hcd
      obtain ⟨k, d⟩ := cd
      simpa using congrArg Prod.snd this
    exact patch_config_eq_self_iff.mp hcd2 f hf
  · intro hnone cd hcd
    have : patch_config name v a now cd.2 = cd.2 :=
      patch_config_eq_self_iff.mpr (hnone cd hcd)
    obtain ⟨k, d⟩ := cd
    simpa using this

/-! ## C1 — compatible patching is not gated on an upload -/

/-- C1 (counterexample): reconciling with `compatible = true` against a
store whose asset `/a.json` is byte-identical to the local content
performs zero puts, yet the existing manifest is rewritten (its stale
entry at version 1 = remote version 2 − 1 is bumped to version 2 and the
manifest is marked updated): the claim's "no upload implies every existing
manifest is left unchanged" is false. -/
theorem C1_counterexample :
    update_changed_assets C1_bucket [(str "a.json", str "X")] none true (str "ca") 99 =
      .ok { bucket := C1_bucket,
            updated_assets := [
              (str "/a.json",
                { name := str "/a.json", size := 1, ftype := some (str "json"),
                  url := str "https://s3.ca.amazonaws.com/bkt/assets/a.json?versionId=1",
                  version := 2, zsize := none, zurl := none })],
            configs := C1u_expected.configs,
            puts := [] } ∧
      C1u_expected.configs ≠ C1_cfgs := by
  constructor <;> decide

/-- C1 (amended): in `compatible` mode `update_asset` patches existing
manifests regardless of whether an upload occurred.  In a call performing
no upload (`upload_file = false`) nothing is put, and the manifests are
left unchanged if and only if no file entry of any manifest matches the
asset's name at the re-fetched remote version minus 1 — matching entries
are rewritten even though no upload happened. -/
theorem C1_patch_not_gated_on_upload {bucket : Bucket} {name : Str}
    {asset_type : Option Str} {content : Str} {version : Nat} {zcontent : Option Str}
    {configs : List (Str × ConfigDetails)} {region : Str} {now : Nat} {r : UpdateResult}
    (h : update_asset bucket name asset_type content version zcontent true configs
        false region now = .ok r) :
    r.puts = [] ∧
      (r.configs = configs ↔ ∀ cd ∈ configs, ∀ f ∈ cd.2.content.files,
        ¬(f.name = name ∧ (f.version : Int) = (r.asset.version : Int) - 1)) := by
  obtain ⟨base, fv, hbase, hv⟩ := update_asset_noupload_inv h
  rw [update_asset_noupload_eq bucket name asset_type content version zcontent true
    configs region now base fv hbase hv] at h
  cases hz : pyTruthy zcontent with
  | false =>
    simp only [hz, Bool.false_eq_true, if_false, Except.ok.injEq] at h
    subst h
    exact ⟨rfl, patch_configs_map_eq_self_iff⟩
  | true =>
    simp only [hz, if_true] at h
    cases hzo : getObj bucket (str "assets" ++ name ++ str ".gz") with
    | none => rw [hzo] at h; exact Except.noConfusion h
    | some zobj =>
      rw [hzo] at h
      simp only [Except.ok.injEq] at h
      subst h
      exact ⟨rfl, patch_configs_map_eq_self_iff⟩

/-- C1 (witness): the amended theorem applied to the concrete no-upload
call of the counterexample store: zero puts, and the configs dict did
change (it contained a matching stale entry). -/
theorem C1_patch_not_gated_witness :
    C1u_expected.puts = [] ∧ C1u_expected.configs ≠ C1_cfgs := by
  have h := @C1_patch_not_gated_on_upload C1_bucket (str "/a.json")
    (some (str "json")) (str "X") 1 none C1_cfgs (str "ca") 99
    C1u_expected (by decide)
  refine ⟨h.1, fun heq => ?_⟩
  exact h.2.mp heq (str "config/1.0.0.json", C1_original_details) (by decide)
    C1_entry (by decide) (by decide)

/-! ## C4 — compressed fields are synced only for entries that already
have them -/

/-- C4 (counterexample): a compatible update whose new asset has a
compressed sibling (`zsize = some 2`, `zurl` set) rewrites a matching
entry that previously had no compressed fields — and leaves it with no
compressed fields, contradicting the claim's "including the case where
the entry previously had no compressed fields but the new asset does". -/
theorem C4_counterexample :
    update_asset C4_bucket (str "/a") none (str "YY") 4 (some (str "ZZ")) true C4_configs
        true (str "ca") 77 = .ok C4_expected ∧
      C4_expected.asset.zsize = some 2 ∧ C4_expected.asset.zurl.isSome = true ∧
      C4_patched_entry.zsize = none ∧ C4_patched_entry.zurl = none ∧
      C4_expected.configs = [
        (str "config/1.0.0.json",
          { content := { files := [C4_patched_entry], lastUpdatedAt := 77 },
            key := str "config/1.0.0.json", updated := true })] := by
  refine ⟨?_, ?_, ?_, ?_, ?_, ?_⟩ <;> decide

/-- C4 (amended): when a compatible update rewrites a matching manifest
entry, the compressed fields are reconciled only when the entry already
has a `zsize` field: such an entry receives the new asset's `zsize`/`zurl`
when the asset has them, and loses both when it does not; an entry without
`zsize` keeps `zsize = none` and its `zurl` untouched even when the new
asset has a compressed sibling. -/
theorem C4_zfield_sync {name : Str} {version : Nat} {asset : AssetDetails} {f : FileEntry}
    (hmatch : f.name = name ∧ (f.version : Int) = (version : Int) - 1) :
    (patch_file_entry name version asset f).2 = true ∧
      (patch_file_entry name version asset f).1.size = asset.size ∧
      (patch_file_entry name version asset f).1.url = asset.url ∧
      (patch_file_entry name version asset f).1.version = version ∧
      (f.zsize.isSome = true →
        (asset.zsize.isSome = true →
          (patch_file_entry name version asset f).1.zsize = asset.zsize ∧
          (patch_file_entry name version asset f).1.zurl = asset.zurl) ∧
        (asset.zsize = none →
          (patch_file_entry name version asset f).1.zsize = none ∧
          (patch_file_entry name version asset f).1.zurl = none)) ∧
      (f.zsize = none →
        (patch_file_entry name version asset f).1.zsize = none ∧
        (patch_file_entry name version asset f).1.zurl = f.zurl) := by
  unfold patch_file_entry
  rw [if_neg (by rw [not_or]; exact ⟨not_not_intro hmatch.1, not_not_intro hmatch.2⟩)]
  cases hz : f.zsize <;> cases ha : asset.zsize <;> simp [hz, ha]

/-- C4 (witness): the amended theorem applied to the counterexample entry
(no compressed fields) and asset (compressed sibling present). -/
theorem C4_zfield_sync_witness :
    (patch_file_entry (str "/a") 4 C4_asset C4_entry).2 = true ∧
      (patch_file_entry (str "/a") 4 C4_asset C4_entry).1.zsize = none ∧
      (patch_file_entry (str "/a") 4 C4_asset C4_entry).1.zurl = C4_entry.zurl ∧
      C4_asset.zsize = some 2 := by
  have h := @C4_zfield_sync (str "/a") 4 C4_asset C4_entry (by decide)
  have h6 := h.2.2.2.2.2 (by decide)
  exact ⟨h.1, h6.1, h6.2, by decide⟩

/-! ## C10 — the dev manifest builder fails before writing -/

/-- C10: for every input, `build_dev_config` fails with a `NameError` at
the serialization step — the dumped variable `config_json` is bound
neither among the function's locals nor in the module scope — and no
config output is written to the output file. -/
theorem C10_dev_dump_fails (asset_dir : Str) (tree : FsDir) (getsize : Str → Nat)
    (exists_gz : Str → Bool) (output_dir filename : Str) (now : Nat) :
    (build_dev_config asset_dir tree getsize exists_gz output_dir filename now).2 =
        .error "NameError: name config_json is not defined" ∧
      (build_dev_config asset_dir tree getsize exists_gz output_dir filename now).1.2 = [] ∧
      dev_dump_argument_name ∉ build_dev_config_local_names ++ release_manager_module_names := by
  have hmem : dev_dump_argument_name ∉
      build_dev_config_local_names ++ release_manager_module_names := by decide
  unfold build_dev_config
  rw [if_neg hmem]
  exact ⟨rfl, rfl, hmem⟩

/-! ## C5 — raises-iff for the version token -/

/-- Bind of a successful `Except` computation. -/
theorem except_bind_ok {α β : Type} (a : α) (f : α → Except String β) :
    (Except.ok a >>= f) = f a := rfl

/-- Bind of a failed `Except` computation. -/
theorem except_bind_err {α β : Type} (e : String) (f : α → Except String β) :
    ((Except.error e : Except String α) >>= f) = .error e := rfl

/-- The comparison loop cannot raise when the candidate triple is no
longer than the current maximum. -/
theorem versionBeats_ok : ∀ (iv mv : List Int), iv.length ≤ mv.length →
    ∃ b, versionBeats iv mv = .ok b := by
  intro iv
  induction iv with
  | nil => intro mv _; exact ⟨false, rfl⟩
  | cons i ivs ih =>
    intro mv hlen
    cases mv with
    | nil => simp at hlen
    | cons m mvs =>
      unfold versionBeats
      by_cases h : i > m
      · exact ⟨true, by rw [if_pos h]⟩
      · rw [if_neg h]
        exact ih mvs (by simpa using hlen)

/-- Under well-formed keys, the most-recent-config scan succeeds and
returns a triple. -/
theorem get_most_recent_config_wf (keys : List Str)
    (hw : wellFormedConfigKeys keys = true) :
    ∃ m, get_most_recent_config keys = .ok m ∧ m.length = 3 := by
  unfold get_most_recent_config
  suffices hgen : ∀ (ks : List Str) (init : List Int), ks.all configKeyOK = true →
      init.length = 3 → ∃ m, ks.foldlM mostRecentStep init = .ok m ∧ m.length = 3 by
    exact hgen keys [0, 0, 0] hw rfl
  intro ks
  induction ks with
  | nil => intro init _ hi; exact ⟨init, rfl, hi⟩
  | cons k rest ih =>
    intro init hall hi
    rw [List.all_cons] at hall
    have hk : configKeyOK k = true := (Bool.and_eq_true_iff.mp hall).1
    have hrest : rest.all configKeyOK = true := (Bool.and_eq_true_iff.mp hall).2
    rw [List.foldlM_cons]
    by_cases hc : k.take 7 = str "config/" ∧ k.length > 7
    · have hparse : ∃ v, parseConfigKeyVersion k = .ok v ∧ v.length = 3 := by
        unfold configKeyOK at hk
        rw [if_pos hc] at hk
        cases hp : parseConfigKeyVersion k with
        | error e => rw [hp] at hk; exact absurd hk (by simp)
        | ok v =>
          rw [hp] at hk
          exact ⟨v, rfl, by simpa using of_decide_eq_true hk⟩
      obtain ⟨v, hpv, hvlen⟩ := hparse
      have hstep : ∃ m1, mostRecentStep init k = .ok m1 ∧ m1.length = 3 := by
        unfold mostRecentStep
        rw [if_neg (by rw [not_or, not_not, not_not]; exact hc)]
        rw [hpv, except_bind_ok]
        obtain ⟨b, hb⟩ := versionBeats_ok v init (by rw [hvlen, hi])
        rw [hb, except_bind_ok]
        cases b with
        | true => exact ⟨v, rfl, hvlen⟩
        | false => exact ⟨init, rfl, hi⟩
      obtain ⟨m1, hm1, hm1len⟩ := hstep
      rw [hm1, except_bind_ok]
      exact ih m1 hrest hm1len
    · have hstep : mostRecentStep init k = .ok init := by
        unfold mostRecentStep
        rw [if_pos]
        rcases not_and_or.mp hc with h | h
        · exact Or.inl h
        · exact Or.inr h
      rw [hstep, except_bind_ok]
      exact ih init hrest hi

/-- C5: with well-formed existing keys, `get_release_config_version` fails
with the invalid-argument `ValueError` if and only if the token is none of
`major`/`minor`/`patch` and no prefix of it matches `[0-9]+[.][0-9]+[.][0-9]+`
(Python `re.match` anchors at the start only); and a token matching the
pattern is returned unchanged for every listing, i.e. without consulting
existing versions. -/
theorem C5_invalid_token_iff (keys : List Str) (version : Str)
    (hw : wellFormedConfigKeys keys = true) :
    (get_release_config_version keys version = .error invalid_version_msg ↔
      (re_match_vernum version = false ∧ version ≠ str "major" ∧
        version ≠ str "minor" ∧ version ≠ str "patch")) ∧
    (re_match_vernum version = true →
      ∀ keys2 : List Str, get_release_config_version keys2 version = .ok version) := by
  constructor
  · cases hm : re_match_vernum version with
    | true =>
      unfold get_release_config_version
      rw [if_pos hm]
      simp [hm]
    | false =>
      obtain ⟨m, hget, hlen⟩ := get_most_recent_config_wf keys hw
      obtain ⟨a, b, c, rfl⟩ := List.length_eq_three.mp hlen
      unfold get_release_config_version
      rw [if_neg (by rw [hm]; exact Bool.false_ne_true)]
      rw [hget, except_bind_ok]
      by_cases h1 : version = str "major"
      · rw [if_pos h1]
        simp [h1, except_bind_ok]
      · rw [if_neg h1]
        by_cases h2 : version = str "minor"
        · rw [if_pos h2]
          simp [h1, h2, except_bind_ok]
        · rw [if_neg h2]
          by_cases h3 : version = str "patch"
          · rw [if_pos h3]
            simp [h1, h2, h3, except_bind_ok]
          · rw [if_neg h3, except_bind_err]
            simp [hm, h1, h2, h3, invalid_version_msg]
  · intro hm keys2
    unfold get_release_config_version
    rw [if_pos hm]

/-- C5 (witness): the theorem applied to a concrete well-formed listing
and the token `bogus`, which matches neither the pattern nor a bump
keyword: the call fails with the invalid-argument error. -/
theorem C5_invalid_token_witness :
    get_release_config_version [str "config/1.0.0.json"] (str "bogus") =
      .error invalid_version_msg :=
  (C5_invalid_token_iff [str "config/1.0.0.json"] (str "bogus") (by decide)).1.mpr
    (by refine ⟨by decide, by decide, by decide, by decide⟩)

/-! ## C9 — the asset scanner -/

/-- The Python string order is total. -/
theorem lexLe_total : ∀ a b : Str, lexLe a b = true ∨ lexLe b a = true := by
  intro a
  induction a with
  | nil => intro b; exact Or.inl rfl
  | cons x xs ih =>
    intro b
    cases b with
    | nil => exact Or.inr rfl
    | cons y ys =>
      unfold lexLe
      rcases lt_trichotomy x y with h | h | h
      · left; rw [if_pos h]
      · subst h
        simp only [if_neg (lt_irrefl x)]
        exact ih ys
      · right; rw [if_pos h]

/-- The Python string order is transitive. -/
theorem lexLe_trans : ∀ a b c : Str, lexLe a b = true → lexLe b c = true →
    lexLe a c = true := by
  intro a
  induction a with
  | nil => intro b c _ _; rfl
  | cons x xs ih =>
    intro b c hab hbc
    cases b with
    | nil => exact absurd hab (by simp [lexLe])
    | cons y ys =>
      cases c with
      | nil => exact absurd hbc (by simp [lexLe])
      | cons z zs =>
        unfold lexLe at hab hbc ⊢
        rcases lt_trichotomy x y with h1 | h1 | h1
        · rcases lt_trichotomy y z with h2 | h2 | h2
          · rw [if_pos (h1.trans h2)]
          · subst h2; rw [if_pos h1]
          · rw [if_neg (asymm h2), if_pos h2] at hbc
            exact absurd hbc Bool.false_ne_true
        · subst h1
          rcases lt_trichotomy x z with h2 | h2 | h2
          · rw [if_pos h2]
          · subst h2
            simp only [if_neg (lt_irrefl x)] at hab hbc ⊢
            exact ih ys zs hab hbc
          · rw [if_neg (asymm h2), if_pos h2] at hbc
            exact absurd hbc Bool.false_ne_true
        · rw [if_neg (asymm h1), if_pos h1] at hab
          exact absurd hab Bool.false_ne_true

/-- Every entry returned by the scanner has a non-dot filename and a path
free of `config` (by strong induction on the tree size). -/
theorem mem_get_all_assets_aux : ∀ (n : Nat) (t : FsDir), sizeOf t ≤ n →
    ∀ (root : Str) (p : Str × Str), p ∈ get_all_assets root t →
      (str ".").isPrefixOf p.2 = false ∧
        strContains (pathJoin p.1 p.2) (str "config") = false := by
  intro n
  induction n with
  | zero =>
    intro t h
    obtain ⟨files, subdirs⟩ := t
    simp at h
  | succ n ih =>
    intro t hle root p hp
    obtain ⟨files, subdirs⟩ := t
    unfold get_all_assets at hp
    rw [(List.perm_insertionSort byName _).mem_iff] at hp
    rcases List.mem_append.mp hp with hown | hrec
    · obtain ⟨f, hf, rfl⟩ := List.mem_map.mp hown
      obtain ⟨_, hcond⟩ := List.mem_filter.mp hf
      rw [Bool.and_eq_true_iff] at hcond
      exact ⟨Bool.not_eq_true' .. ▸ hcond.1, Bool.not_eq_true' .. ▸ hcond.2⟩
    · rw [List.mem_flatten] at hrec
      obtain ⟨l, hl, hpl⟩ := hrec
      rw [List.mem_map] at hl
      obtain ⟨s, _, rfl⟩ := hl
      obtain ⟨⟨nm, sub⟩, hmem2⟩ := s
      have hsize : sizeOf sub ≤ n := by
        have hmem := List.sizeOf_lt_of_mem hmem2
        simp at hmem hle
        omega
      exact ih sub hsize (pathJoin root nm) p hpl

/-- C9: for every root directory, the scanner's result is sorted by
filename alone (Python string order), every returned filename does not
start with `.`, and every returned path (containing directory joined with
the filename) does not contain the substring `config`. -/
theorem C9_scanner_spec (root : Str) (t : FsDir) :
    List.Sorted byName (get_all_assets root t) ∧
      ∀ p ∈ get_all_assets root t,
        (str ".").isPrefixOf p.2 = false ∧
          strContains (pathJoin p.1 p.2) (str "config") = false := by
  constructor
  · obtain ⟨files, subdirs⟩ := t
    unfold get_all_assets
    exact @List.sorted_insertionSort (Str × Str) byName _
      ⟨fun a b => lexLe_total a.2 b.2⟩
      ⟨fun a b c hab hbc => lexLe_trans a.2 b.2 c.2 hab hbc⟩ _
  · exact fun p hp => mem_get_all_assets_aux (sizeOf t) t le_rfl root p hp

/-! ## C7 — listing-order safety of the remote-state reconstruction -/

/-- A key is in the key set iff its lookup succeeds. -/
theorem lookup_isSome_iff_mem_keys {α : Type} (l : List (Str × α)) (k : Str) :
    (l.lookup k).isSome = true ↔ k ∈ l.map Prod.fst := by
  induction l with
  | nil => exact ⟨fun h => Bool.noConfusion h, fun h => absurd h (List.not_mem_nil _)⟩
  | cons p rest ih =>
    rw [List.lookup_cons]
    cases hk : (k == p.1) with
    | true =>
      have heq : k = p.1 := beq_iff_eq.mp hk
      simp only [Option.isSome_some, List.map_cons, List.mem_cons, true_iff]
      exact Or.inl heq
    | false =>
      have hne : k ≠ p.1 := by simpa using hk
      simp only [List.map_cons, List.mem_cons, ih]
      constructor
      · exact fun h => Or.inr h
      · rintro (h | h)
        · exact absurd h hne
        · exact h

/-- Upserting preserves membership in the key set and adds the upserted
key. -/
theorem mem_keys_upsertKeep {α : Type} (l : List (Str × α)) (k x : Str) (v : α) :
    x ∈ (upsertKeep l k v).map Prod.fst ↔ x = k ∨ x ∈ l.map Prod.fst := by
  induction l with
  | nil =>
    simp only [upsertKeep, List.map_cons, List.map_nil, List.mem_singleton,
      List.not_mem_nil, or_false]
  | cons p rest ih =>
    unfold upsertKeep
    by_cases hp : p.1 = k
    · rw [if_pos hp]
      simp only [List.map_cons, List.mem_cons, hp]
      tauto
    · rw [if_neg hp]
      simp only [List.map_cons, List.mem_cons, ih]
      tauto

/-- Case inversion for one step of the listing loop. -/
theorem classify_item_cases {st : List (Str × ConfigDetails) × List (Str × ExistingAsset)}
    {k : Str} {o : S3Object}
    {st' : List (Str × ConfigDetails) × List (Str × ExistingAsset)}
    (h : classify_item st (k, o) = .ok st') :
    ((k.take 7 = str "config/" ∧ k.length > 7) ∧ ∃ c, o.body = .configJson c ∧
      st' = (upsertKeep st.1 k { content := c, key := k, updated := false }, st.2)) ∨
    (¬(k.take 7 = str "config/" ∧ k.length > 7) ∧
      (k.take 7 = str "assets/" ∧ k.length > 7) ∧
      ((takeLast 3 (k.drop 6) = str ".gz" ∧
        ∃ a, st.2.lookup (dropLast' 3 (k.drop 6)) = some a ∧
          st' = (st.1, upsertKeep st.2 (dropLast' 3 (k.drop 6)) { a with zipped := true })) ∨
       (¬takeLast 3 (k.drop 6) = str ".gz" ∧
        ∃ v, o.metaVersion = some v ∧
          st' = (st.1, upsertKeep st.2 (k.drop 6)
            { content := o.body, version := v, versionId := o.versionId,
              zipped := false })))) ∨
    (¬(k.take 7 = str "config/" ∧ k.length > 7) ∧
      ¬(k.take 7 = str "assets/" ∧ k.length > 7) ∧ st' = st) := by
  unfold classify_item at h
  dsimp only at h
  by_cases hc : k.take 7 = str "config/" ∧ k.length > 7
  · rw [if_pos hc] at h
    left
    refine ⟨hc, ?_⟩
    unfold parse_existing_config at h
    cases hb : o.body with
    | bytes s => rw [hb] at h; exact Except.noConfusion h
    | configJson c =>
      rw [hb] at h
      simp only [except_bind_ok, Except.ok.injEq] at h
      exact ⟨c, rfl, h.symm⟩
  · rw [if_neg hc] at h
    by_cases ha : k.take 7 = str "assets/" ∧ k.length > 7
    · rw [if_pos ha] at h
      right; left
      refine ⟨hc, ha, ?_⟩
      unfold parse_existing_asset at h
      dsimp only at h
      by_cases hg : takeLast 3 (k.drop 6) = str ".gz"
      · rw [if_pos hg] at h
        left
        refine ⟨hg, ?_⟩
        cases hl : st.2.lookup (dropLast' 3 (k.drop 6)) with
        | none => rw [hl] at h; exact Except.noConfusion h
        | some a =>
          rw [hl] at h
          simp only [except_bind_ok, Except.ok.injEq] at h
          exact ⟨a, rfl, h.symm⟩
      · rw [if_neg hg] at h
        right
        refine ⟨hg, ?_⟩
        cases hv : o.metaVersion with
        | none => rw [hv] at h; exact Except.noConfusion h
        | some v =>
          rw [hv] at h
          simp only [except_bind_ok, Except.ok.injEq] at h
          exact ⟨v, rfl, h.symm⟩
    · rw [if_neg ha] at h
      right; right
      simp only [Except.ok.injEq] at h
      exact ⟨hc, ha, h.symm⟩

/-- Bool/Prop bridge for config item keys. -/
theorem isConfigItemKey_iff {k : Str} :
    isConfigItemKey k = true ↔ (k.take 7 = str "config/" ∧ k.length > 7) := by
  simp [isConfigItemKey]

/-- Bool/Prop bridge for asset item keys. -/
theorem isAssetItemKey_iff {k : Str} :
    isAssetItemKey k = true ↔ (k.take 7 = str "assets/" ∧ k.length > 7) := by
  simp [isAssetItemKey]

/-- Bool/Prop bridge for compressed asset item keys. -/
theorem isGzAssetItemKey_iff {k : Str} :
    isGzAssetItemKey k = true ↔
      ((k.take 7 = str "assets/" ∧ k.length > 7) ∧ takeLast 3 (k.drop 6) = str ".gz") := by
  simp [isGzAssetItemKey, isAssetItemKey]

/-- Bool/Prop bridge for plain asset item keys. -/
theorem isPlainAssetItemKey_iff {k : Str} :
    isPlainAssetItemKey k = true ↔
      ((k.take 7 = str "assets/" ∧ k.length > 7) ∧ ¬takeLast 3 (k.drop 6) = str ".gz") := by
  simp [isPlainAssetItemKey, isAssetItemKey]

/-- A key cannot be both a config item and an asset item. -/
theorem config_not_asset {k : Str} (hc : k.take 7 = str "config/") :
    ¬(k.take 7 = str "assets/" ∧ k.length > 7) := by
  rintro ⟨ha, -⟩
  rw [hc] at ha
  exact absurd ha (by decide)

/-- Step equation: a config item parses its JSON body into the configs
dict. -/
theorem classify_item_config_eq
    (st : List (Str × ConfigDetails) × List (Str × ExistingAsset)) (k : Str) (o : S3Object)
    (c : Config) (hc : k.take 7 = str "config/" ∧ k.length > 7)
    (hb : o.body = .configJson c) :
    classify_item st (k, o) =
      .ok (upsertKeep st.1 k { content := c, key := k, updated := false }, st.2) := by
  unfold classify_item
  rw [if_pos hc]
  unfold parse_existing_config
  rw [hb]
  rfl

/-- Step equation: a compressed asset item marks its (present) base record
zipped. -/
theorem classify_item_gz_eq
    (st : List (Str × ConfigDetails) × List (Str × ExistingAsset)) (k : Str) (o : S3Object)
    (a : ExistingAsset) (hc : ¬(k.take 7 = str "config/" ∧ k.length > 7))
    (ha : k.take 7 = str "assets/" ∧ k.length > 7)
    (hg : takeLast 3 (k.drop 6) = str ".gz")
    (hl : st.2.lookup (gzBase k) = some a) :
    classify_item st (k, o) =
      .ok (st.1, upsertKeep st.2 (gzBase k) { a with zipped := true }) := by
  unfold classify_item
  rw [if_neg hc, if_pos ha]
  unfold parse_existing_asset
  dsimp only
  rw [if_pos hg]
  unfold gzBase at hl
  rw [hl]
  rfl

/-- Step equation: a plain asset item (with version metadata) creates a
fresh record. -/
theorem classify_item_plain_eq
    (st : List (Str × ConfigDetails) × List (Str × ExistingAsset)) (k : Str) (o : S3Object)
    (v : Nat) (hc : ¬(k.take 7 = str "config/" ∧ k.length > 7))
    (ha : k.take 7 = str "assets/" ∧ k.length > 7)
    (hg : ¬takeLast 3 (k.drop 6) = str ".gz")
    (hv : o.metaVersion = some v) :
    classify_item st (k, o) =
      .ok (st.1, upsertKeep st.2 (k.drop 6)
        { content := o.body, version := v, versionId := o.versionId, zipped := false }) := by
  unfold classify_item
  rw [if_neg hc, if_pos ha]
  unfold parse_existing_asset
  dsimp only
  rw [if_neg hg, hv]
  rfl

/-- Step equation: other keys are ignored. -/
theorem classify_item_skip_eq
    (st : List (Str × ConfigDetails) × List (Str × ExistingAsset)) (k : Str) (o : S3Object)
    (hc : ¬(k.take 7 = str "config/" ∧ k.length > 7))
    (ha : ¬(k.take 7 = str "assets/" ∧ k.length > 7)) :
    classify_item st (k, o) = .ok st := by
  unfold classify_item
  rw [if_neg hc, if_neg ha]

/-- The safety scan is monotone in the seen set. -/
theorem gzSafeFrom_mono : ∀ (objs : List (Str × S3Object)) (seen seen2 : List Str),
    gzSafeFrom seen objs = true → (∀ x ∈ seen, x ∈ seen2) →
    gzSafeFrom seen2 objs = true := by
  intro objs
  induction objs with
  | nil => intro seen seen2 _ _; rfl
  | cons p rest ih =>
    intro seen seen2 hsafe hsub
    obtain ⟨k, o⟩ := p
    unfold gzSafeFrom at hsafe ⊢
    rw [Bool.and_eq_true_iff] at hsafe ⊢
    refine ⟨?_, ?_⟩
    · rcases Bool.or_eq_true_iff.mp hsafe.1 with h | h
      · exact Bool.or_eq_true_iff.mpr (Or.inl h)
      · refine Bool.or_eq_true_iff.mpr (Or.inr ?_)
        exact List.elem_eq_true_of_mem (hsub _ (List.mem_of_elem_eq_true h))
    · cases hp : isPlainAssetItemKey k with
      | true =>
        rw [hp] at hsafe
        simp only [if_true] at hsafe ⊢
        refine ih _ _ hsafe.2 ?_
        intro x hx
        rcases List.mem_cons.mp hx with h | h
        · exact List.mem_cons.mpr (Or.inl h)
        · exact List.mem_cons.mpr (Or.inr (hsub x h))
      | false =>
        rw [hp] at hsafe
        simp only [Bool.false_eq_true, if_false] at hsafe ⊢
        exact ih _ _ hsafe.2 hsub

/-- The listing loop succeeds on any listing whose config bodies parse,
whose plain asset items carry version metadata, and whose compressed keys
only refer to already-created base records; the asset-record key set only
grows. -/
theorem parse_fold_ok : ∀ (objs : List (Str × S3Object))
    (st : List (Str × ConfigDetails) × List (Str × ExistingAsset)),
    configBodiesOK objs = true → plainMetasOK objs = true →
    gzSafeFrom (st.2.map Prod.fst) objs = true →
    ∃ st', objs.foldlM classify_item st = .ok st' ∧
      ∀ x, x ∈ st.2.map Prod.fst → x ∈ st'.2.map Prod.fst := by
  intro objs
  induction objs with
  | nil => intro st _ _ _; exact ⟨st, rfl, fun x hx => hx⟩
  | cons p rest ih =>
    intro st hcb hpm hsafe
    obtain ⟨k, o⟩ := p
    unfold configBodiesOK at hcb
    unfold plainMetasOK at hpm
    rw [List.all_cons, Bool.and_eq_true_iff] at hcb hpm
    unfold gzSafeFrom at hsafe
    rw [Bool.and_eq_true_iff] at hsafe
    by_cases hc : k.take 7 = str "config/" ∧ k.length > 7
    · have hck : isConfigItemKey k = true := isConfigItemKey_iff.mpr hc
      have h1 := hcb.1
      simp only [hck, Bool.not_true, Bool.false_or] at h1
      have hbody : ∃ c, o.body = .configJson c := by
        cases hb : o.body with
        | bytes s => rw [hb] at h1; exact Bool.noConfusion h1
        | configJson c => exact ⟨c, rfl⟩
      obtain ⟨c, hb⟩ := hbody
      rw [List.foldlM_cons, classify_item_config_eq st k o c hc hb, except_bind_ok]
      have hplf : isPlainAssetItemKey k = false := by
        rw [Bool.eq_false_iff]
        intro hp
        exact config_not_asset hc.1 (isPlainAssetItemKey_iff.mp hp).1
      have hsafe2 := hsafe.2
      rw [hplf] at hsafe2
      simp only [Bool.false_eq_true, if_false] at hsafe2
      exact ih _ hcb.2 hpm.2 hsafe2
    · by_cases ha : k.take 7 = str "assets/" ∧ k.length > 7
      · by_cases hg : takeLast 3 (k.drop 6) = str ".gz"
        · have hgz : isGzAssetItemKey k = true := isGzAssetItemKey_iff.mpr ⟨ha, hg⟩
          have hcont : (st.2.map Prod.fst).contains (gzBase k) = true := by
            rcases Bool.or_eq_true_iff.mp hsafe.1 with h | h
            · rw [hgz] at h; exact Bool.noConfusion h
            · exact h
          have hmem := List.mem_of_elem_eq_true hcont
          obtain ⟨a, hl⟩ : ∃ a, st.2.lookup (gzBase k) = some a := by
            have hsome := (lookup_isSome_iff_mem_keys st.2 (gzBase k)).mpr hmem
            cases hx : st.2.lookup (gzBase k) with
            | none => rw [hx] at hsome; exact Bool.noConfusion hsome
            | some a => exact ⟨a, rfl⟩
          rw [List.foldlM_cons, classify_item_gz_eq st k o a hc ha hg hl, except_bind_ok]
          have hplf : isPlainAssetItemKey k = false := by
            rw [Bool.eq_false_iff]
            intro hp
            exact (isPlainAssetItemKey_iff.mp hp).2 hg
          have hsafe2 := hsafe.2
          rw [hplf] at hsafe2
          simp only [Bool.false_eq_true, if_false] at hsafe2
          have hsafe3 : gzSafeFrom
              ((upsertKeep st.2 (gzBase k) { a with zipped := true }).map Prod.fst) rest
              = true := by
            refine gzSafeFrom_mono rest _ _ hsafe2 ?_
            intro x hx
            exact (mem_keys_upsertKeep _ _ _ _).mpr (Or.inr hx)
          obtain ⟨st', hfold, hkeys⟩ :=
            ih (st.1, upsertKeep st.2 (gzBase k) { a with zipped := true })
              hcb.2 hpm.2 hsafe3
          refine ⟨st', hfold, ?_⟩
          intro x hx
          exact hkeys x ((mem_keys_upsertKeep _ _ _ _).mpr (Or.inr hx))
        · have hpl : isPlainAssetItemKey k = true := isPlainAssetItemKey_iff.mpr ⟨ha, hg⟩
          have h1 := hpm.1
          simp only [hpl, Bool.not_true, Bool.false_or] at h1
          obtain ⟨v, hv⟩ : ∃ v, o.metaVersion = some v := by
            cases hx : o.metaVersion with
            | none => rw [hx] at h1; exact Bool.noConfusion h1
            | some v => exact ⟨v, rfl⟩
          rw [List.foldlM_cons, classify_item_plain_eq st k o v hc ha hg hv, except_bind_ok]
          have hsafe2 := hsafe.2
          rw [hpl] at hsafe2
          simp only [if_true] at hsafe2
          have hsafe3 : gzSafeFrom
              ((upsertKeep st.2 (k.drop 6)
                { content := o.body, version := v, versionId := o.versionId,
                  zipped := false }).map Prod.fst) rest = true := by
            refine gzSafeFrom_mono rest _ _ hsafe2 ?_
            intro x hx
            rcases List.mem_cons.mp hx with h | h
            · exact (mem_keys_upsertKeep _ _ _ _).mpr (Or.inl h)
            · exact (mem_keys_upsertKeep _ _ _ _).mpr (Or.inr h)
          obtain ⟨st', hfold, hkeys⟩ :=
            ih (st.1, upsertKeep st.2 (k.drop 6)
              { content := o.body, version := v, versionId := o.versionId, zipped := false })
              hcb.2 hpm.2 hsafe3
          refine ⟨st', hfold, ?_⟩
          intro x hx
          exact hkeys x ((mem_keys_upsertKeep _ _ _ _).mpr (Or.inr hx))
      · rw [List.foldlM_cons, classify_item_skip_eq st k o hc ha, except_bind_ok]
        have hplf : isPlainAssetItemKey k = false := by
          rw [Bool.eq_false_iff]
          intro hp
          exact ha (isPlainAssetItemKey_iff.mp hp).1
        have hsafe2 := hsafe.2
        rw [hplf] at hsafe2
        simp only [Bool.false_eq_true, if_false] at hsafe2
        exact ih _ hcb.2 hpm.2 hsafe2

/-- Fold inversion across an append. -/
theorem foldlM_append_ok_inv {l1 l2 : List (Str × S3Object)}
    {st st' : List (Str × ConfigDetails) × List (Str × ExistingAsset)}
    (h : (l1 ++ l2).foldlM classify_item st = .ok st') :
    ∃ stm, l1.foldlM classify_item st = .ok stm ∧
      l2.foldlM classify_item stm = .ok st' := by
  rw [List.foldlM_append] at h
  cases hm : l1.foldlM classify_item st with
  | error e => rw [hm, except_bind_err] at h; exact Except.noConfusion h
  | ok stm => rw [hm, except_bind_ok] at h; exact ⟨stm, rfl, h⟩

/-- Fold inversion across a cons. -/
theorem foldlM_cons_ok_inv {p : Str × S3Object} {l : List (Str × S3Object)}
    {st st' : List (Str × ConfigDetails) × List (Str × ExistingAsset)}
    (h : ((p :: l).foldlM classify_item st) = .ok st') :
    ∃ st1, classify_item st p = .ok st1 ∧ l.foldlM classify_item st1 = .ok st' := by
  rw [List.foldlM_cons] at h
  cases hm : classify_item st p with
  | error e => rw [hm, except_bind_err] at h; exact Except.noConfusion h
  | ok st1 => rw [hm, except_bind_ok] at h; exact ⟨st1, rfl, h⟩

/-- A plain-prefix fact: every `assets/` key is `assets` followed by its
stripped name. -/
theorem asset_key_decompose {k : Str} (h7 : k.take 7 = str "assets/") :
    k = str "assets" ++ k.drop 6 := by
  conv_lhs => rw [← List.take_append_drop 6 k]
  congr 1
  have h6 : (k.take 7).take 6 = (str "assets/").take 6 := by rw [h7]
  rw [List.take_take] at h6
  simpa using h6

/-- Every key of the final asset map originates in the initial map or in a
plain asset item of the listing. -/
theorem parse_fold_keys_origin : ∀ (objs : List (Str × S3Object))
    (st st' : List (Str × ConfigDetails) × List (Str × ExistingAsset)),
    objs.foldlM classify_item st = .ok st' →
    ∀ n, n ∈ st'.2.map Prod.fst →
      n ∈ st.2.map Prod.fst ∨
        ∃ p ∈ objs, isPlainAssetItemKey p.1 = true ∧ p.1.drop 6 = n := by
  intro objs
  induction objs with
  | nil =>
    intro st st' h n hn
    cases h
    exact Or.inl hn
  | cons p rest ih =>
    intro st st' h n hn
    obtain ⟨st1, hstep, hrest⟩ := foldlM_cons_ok_inv h
    obtain ⟨k, o⟩ := p
    rcases ih st1 st' hrest n hn with hin | ⟨q, hq, hqp⟩
    · rcases classify_item_cases hstep with
        ⟨hc, c, hb, rfl⟩ | ⟨hc, ha, ⟨hg, a, hl, rfl⟩ | ⟨hg, v, hv, rfl⟩⟩ | ⟨hc, ha, rfl⟩
      · exact Or.inl hin
      · rcases (mem_keys_upsertKeep _ _ _ _).mp hin with rfl | hin'
        · exact Or.inl ((lookup_isSome_iff_mem_keys _ _).mp (by rw [hl]; rfl))
        · exact Or.inl hin'
      · rcases (mem_keys_upsertKeep _ _ _ _).mp hin with rfl | hin'
        · exact Or.inr ⟨(k, o), List.mem_cons_self .., isPlainAssetItemKey_iff.mpr ⟨ha, hg⟩, rfl⟩
        · exact Or.inl hin'
      · exact Or.inl hin
    · exact Or.inr ⟨q, List.mem_cons.mpr (Or.inr hq), hqp⟩

/-- Once a record is marked zipped, it stays zipped through the rest of the
listing provided no later plain item recreates it. -/
theorem parse_fold_zipped_preserved : ∀ (objs : List (Str × S3Object))
    (st st' : List (Str × ConfigDetails) × List (Str × ExistingAsset)) (n : Str),
    objs.foldlM classify_item st = .ok st' →
    (∀ p ∈ objs, ¬(isPlainAssetItemKey p.1 = true ∧ p.1.drop 6 = n)) →
    ∀ a, st.2.lookup n = some a → a.zipped = true →
      ∃ a', st'.2.lookup n = some a' ∧ a'.zipped = true := by
  intro objs
  induction objs with
  | nil =>
    intro st st' n h _ a hl hz
    cases h
    exact ⟨a, hl, hz⟩
  | cons p rest ih =>
    intro st st' n h hnop a hl hz
    obtain ⟨st1, hstep, hrest⟩ := foldlM_cons_ok_inv h
    obtain ⟨k, o⟩ := p
    have hnop_rest : ∀ q ∈ rest, ¬(isPlainAssetItemKey q.1 = true ∧ q.1.drop 6 = n) :=
      fun q hq => hnop q (List.mem_cons.mpr (Or.inr hq))
    rcases classify_item_cases hstep with
      ⟨hc, c, hb, rfl⟩ | ⟨hc, ha, ⟨hg, a0, hl0, rfl⟩ | ⟨hg, v, hv, rfl⟩⟩ | ⟨hc, ha, rfl⟩
    · exact ih _ _ _ hrest hnop_rest a hl hz
    · by_cases hbn : dropLast' 3 (k.drop 6) = n
      · subst hbn
        refine ih _ _ _ hrest hnop_rest { a0 with zipped := true } ?_ rfl
        exact lookup_upsertKeep_self ..
      · refine ih _ _ _ hrest hnop_rest a ?_ hz
        rw [lookup_upsertKeep_ne _ _ _ _ (fun hh => hbn hh.symm)]
        exact hl
      -- note: in the first branch the old record at `n` is `a0 = a`, and the
      -- upsert stores it re-marked zipped
    · have hne : k.drop 6 ≠ n := by
        intro hh
        exact hnop (k, o) (List.mem_cons_self ..) ⟨isPlainAssetItemKey_iff.mpr ⟨ha, hg⟩, hh⟩
      refine ih _ _ _ hrest hnop_rest a ?_ hz
      rw [lookup_upsertKeep_ne _ _ _ _ (fun hh => hne hh.symm)]
      exact hl
    · exact ih _ _ _ hrest hnop_rest a hl hz

/-- C7: (1) for every remote listing with decodable config bodies,
version metadata on plain asset items, no duplicate keys, and every
compressed-suffix key appearing after its base asset key (as a plain
asset item), the reconstruction loop succeeds and the base record of every
compressed key ends up marked `zipped`; (2) whenever the loop reaches a
compressed-suffix key whose base record has not been created, processing
that key fails with the unguarded `KeyError`. -/
theorem C7_listing_order_safety :
    (∀ objs : List (Str × S3Object),
      configBodiesOK objs = true → plainMetasOK objs = true →
      gzSafeFrom [] objs = true → (objs.map Prod.fst).Nodup →
      ∃ cfgs assets, parse_bucket_objects objs = .ok (cfgs, assets) ∧
        ∀ p ∈ objs, isGzAssetItemKey p.1 = true →
          ∃ a, assets.lookup (gzBase p.1) = some a ∧ a.zipped = true) ∧
    (∀ (objs1 : List (Str × S3Object)) (k : Str) (o : S3Object)
        (objs2 : List (Str × S3Object)) (cfgs : List (Str × ConfigDetails))
        (assets : List (Str × ExistingAsset)),
      parse_bucket_objects objs1 = .ok (cfgs, assets) →
      isGzAssetItemKey k = true → assets.lookup (gzBase k) = none →
      ∃ msg, parse_bucket_objects (objs1 ++ (k, o) :: objs2) = .error msg) := by
  constructor
  · intro objs hcb hpm hsafe hnd
    obtain ⟨st', hfold, -⟩ := parse_fold_ok objs ([], []) hcb hpm hsafe
    obtain ⟨cfgs, assets⟩ := st'
    refine ⟨cfgs, assets, hfold, ?_⟩
    intro p hp hgz
    obtain ⟨l1, l2, rfl⟩ := List.append_of_mem hp
    obtain ⟨stm, h1, h2⟩ := foldlM_append_ok_inv hfold
    obtain ⟨stm2, hstep, h3⟩ := foldlM_cons_ok_inv h2
    obtain ⟨k, o⟩ := p
    have hgz' := isGzAssetItemKey_iff.mp hgz
    rcases classify_item_cases hstep with
      ⟨hc, c, hb, heq⟩ | ⟨hc, ha, ⟨hg, a0, hl0, heq⟩ | ⟨hg, v, hv, heq⟩⟩ | ⟨hc, ha, heq⟩
    · rw [hgz'.1.1] at hc
      exact absurd hc.1 (by decide)
    · subst heq
      have hnol2 : ∀ q ∈ l2, ¬(isPlainAssetItemKey q.1 = true ∧ q.1.drop 6 = gzBase k) := by
        rintro q hq ⟨hqp, hqn⟩
        have hq7 := (isPlainAssetItemKey_iff.mp hqp).1.1
        have hqkey : q.1 = str "assets" ++ gzBase k := by
          rw [asset_key_decompose hq7, hqn]
        have hbase_mem : gzBase k ∈ stm.2.map Prod.fst :=
          (lookup_isSome_iff_mem_keys _ _).mp (by unfold gzBase; rw [hl0]; rfl)
        rcases parse_fold_keys_origin l1 ([], []) stm h1 (gzBase k) hbase_mem with
          hin0 | ⟨p1, hp1, hp1plain, hp1n⟩
        · exact absurd hin0 (by simp)
        · have hp1key : p1.1 = str "assets" ++ gzBase k := by
            rw [asset_key_decompose (isPlainAssetItemKey_iff.mp hp1plain).1.1, hp1n]
          rw [List.map_append, List.nodup_append] at hnd
          refine hnd.2.2 (List.mem_map_of_mem Prod.fst hp1) ?_
          rw [hp1key, ← hqkey]
          exact List.mem_map_of_mem Prod.fst (List.mem_cons.mpr (Or.inr hq))
      obtain ⟨a', hla', hz'⟩ := parse_fold_zipped_preserved l2 _ (cfgs, assets)
        (gzBase k) h3 hnol2 { a0 with zipped := true } (by
          unfold gzBase
          exact lookup_upsertKeep_self ..) rfl
      exact ⟨a', hla', hz'⟩
    · exact absurd hgz'.2 hg
    · exact absurd hgz'.1 ha
  · intro objs1 k o objs2 cfgs assets hparse hgz hnone
    refine ⟨"KeyError: compressed sibling listed before its base asset", ?_⟩
    have hgz' := isGzAssetItemKey_iff.mp hgz
    unfold parse_bucket_objects at hparse ⊢
    rw [List.foldlM_append, hparse, except_bind_ok, List.foldlM_cons]
    have hstep : classify_item (cfgs, assets) (k, o) =
        .error "KeyError: compressed sibling listed before its base asset" := by
      unfold classify_item
      rw [if_neg (fun hh : k.take 7 = str "config/" ∧ k.length > 7 => by
        rw [hgz'.1.1] at hh
        exact absurd hh.1 (by decide))]
      rw [if_pos hgz'.1]
      unfold parse_existing_asset
      dsimp only
      rw [if_pos hgz'.2]
      unfold gzBase at hnone
      rw [hnone]
      rfl
    rw [hstep, except_bind_err]

/-- C7 (witness): the good listing (base before compressed sibling) parses
successfully; the compressed item with no base fails. -/
theorem C7_listing_order_witness :
    (parse_bucket_objects C7_good_listing).isOk = true ∧
      (parse_bucket_objects [C7_bad_item]).isOk = false := by
  constructor
  · obtain ⟨cfgs, assets, hok, -⟩ := C7_listing_order_safety.1 C7_good_listing
      (by decide) (by decide) (by decide) (by decide)
    rw [hok]
    rfl
  · obtain ⟨msg, herr⟩ := C7_listing_order_safety.2 [] (str "assets/y.gz") C7_obj_gz []
      [] [] rfl (by decide) rfl
    rw [show [C7_bad_item] = [] ++ (str "assets/y.gz", C7_obj_gz) :: [] from rfl, herr]
    rfl

/-! ## C8/C3 — shared key-shape and store lemmas -/

/-- The two spellings of an asset base key agree. -/
theorem base_key_eq (n : Str) :
    str "assets" ++ (str "/" ++ n) = str "assets/" ++ n := by
  rw [← List.append_assoc]
  rfl

/-- Dropping the `assets` prefix from `assets ++ m` yields `m`. -/
theorem assets_prefix_drop (m : Str) : (str "assets" ++ m).drop 6 = m := by
  have h6 : (6 : Nat) = (str "assets").length := rfl
  rw [h6]
  exact List.drop_left _ _

/-- The 7-character prefix of a base asset key. -/
theorem base_key_take7 (n : Str) :
    (str "assets" ++ (str "/" ++ n)).take 7 = str "assets/" := by
  rw [base_key_eq]
  have h7 : (7 : Nat) = (str "assets/").length := rfl
  rw [h7]
  exact List.take_left _ _

/-- The length of a base asset key for a nonempty filename. -/
theorem base_key_length (n : Str) (hne : n ≠ []) :
    (str "assets" ++ (str "/" ++ n)).length > 7 := by
  rw [base_key_eq, List.length_append]
  cases n with
  | nil => exact absurd rfl hne
  | cons c cs => simp [str]

/-- A filename that does not end in `.gz` keeps that property after the
leading slash. -/
theorem slash_name_not_gz (n : Str) (_hne : n ≠ []) (hng : takeLast 3 n ≠ str ".gz") :
    takeLast 3 (str "/" ++ n) ≠ str ".gz" := by
  have hcons : str "/" ++ n = '/' :: n := rfl
  rw [hcons]
  unfold takeLast
  simp only [List.length_cons]
  by_cases h3 : 3 ≤ n.length
  · have harith : n.length + 1 - 3 = (n.length - 3) + 1 := by omega
    rw [harith, List.drop_succ_cons]
    unfold takeLast at hng
    exact hng
  · have harith : n.length + 1 - 3 = 0 := by omega
    rw [harith, List.drop_zero]
    intro heq
    injection heq with h1 _
    exact absurd h1 (by decide)

/-- A base asset key is a plain asset item key. -/
theorem base_key_plain (n : Str) (hne : n ≠ []) (hng : takeLast 3 n ≠ str ".gz") :
    isPlainAssetItemKey (str "assets" ++ (str "/" ++ n)) = true := by
  refine isPlainAssetItemKey_iff.mpr ⟨⟨base_key_take7 n, base_key_length n hne⟩, ?_⟩
  rw [assets_prefix_drop]
  exact slash_name_not_gz n hne hng

/-- A base asset key is not a config item key. -/
theorem base_key_not_config (n : Str) :
    isConfigItemKey (str "assets" ++ (str "/" ++ n)) = false := by
  rw [Bool.eq_false_iff]
  intro h
  have h7 := (isConfigItemKey_iff.mp h).1
  rw [base_key_take7 n] at h7
  exact absurd h7 (by decide)

/-- A base asset key is not a compressed item key. -/
theorem base_key_not_gz (n : Str) (hne : n ≠ []) (hng : takeLast 3 n ≠ str ".gz") :
    isGzAssetItemKey (str "assets" ++ (str "/" ++ n)) = false := by
  rw [Bool.eq_false_iff]
  intro h
  have hg := (isGzAssetItemKey_iff.mp h).2
  rw [assets_prefix_drop] at hg
  exact slash_name_not_gz n hne hng hg

/-- Dropping the `assets` prefix from a compressed sibling key. -/
theorem gz_key_drop6 (n : Str) :
    (str "assets" ++ (str "/" ++ n) ++ str ".gz").drop 6 = (str "/" ++ n) ++ str ".gz" := by
  rw [List.append_assoc]
  exact assets_prefix_drop _

/-- A compressed sibling key ends in `.gz`. -/
theorem gz_key_suffix (m : Str) : takeLast 3 (m ++ str ".gz") = str ".gz" := by
  unfold takeLast
  rw [List.length_append]
  have harith : m.length + (str ".gz").length - 3 = m.length := by
    simp [str]
  rw [harith]
  exact List.drop_left m (str ".gz")

/-- Stripping the `.gz` suffix recovers the base name. -/
theorem gz_strip (m : Str) : dropLast' 3 (m ++ str ".gz") = m := by
  unfold dropLast'
  rw [List.length_append]
  have harith : m.length + (str ".gz").length - 3 = m.length := by
    simp [str]
  rw [harith]
  exact List.take_left m (str ".gz")

/-- A compressed sibling key's 7-character prefix. -/
theorem gz_key_take7 (n : Str) :
    (str "assets" ++ (str "/" ++ n) ++ str ".gz").take 7 = str "assets/" := by
  rw [List.append_assoc, ← List.append_assoc (str "assets")]
  rw [base_key_eq]
  rw [List.append_assoc]
  have h7 : (7 : Nat) = (str "assets/").length := rfl
  rw [h7]
  exact List.take_left _ _

/-- A compressed sibling key is long enough. -/
theorem gz_key_length (n : Str) :
    (str "assets" ++ (str "/" ++ n) ++ str ".gz").length > 7 := by
  simp [str, List.length_append]

/-- A compressed sibling key is a compressed asset item key. -/
theorem gz_key_isGz (n : Str) :
    isGzAssetItemKey (str "assets" ++ (str "/" ++ n) ++ str ".gz") = true := by
  refine isGzAssetItemKey_iff.mpr ⟨⟨gz_key_take7 n, gz_key_length n⟩, ?_⟩
  rw [gz_key_drop6]
  exact gz_key_suffix _

/-- A compressed sibling key is not a config item key. -/
theorem gz_key_not_config (n : Str) :
    isConfigItemKey (str "assets" ++ (str "/" ++ n) ++ str ".gz") = false := by
  rw [Bool.eq_false_iff]
  intro h
  have h7 := (isConfigItemKey_iff.mp h).1
  rw [gz_key_take7 n] at h7
  exact absurd h7 (by decide)

/-- The base of a compressed sibling key is the slashed name. -/
theorem gz_key_base (n : Str) :
    gzBase (str "assets" ++ (str "/" ++ n) ++ str ".gz") = str "/" ++ n := by
  unfold gzBase
  rw [gz_key_drop6]
  exact gz_strip _

/-- Base keys are injective in the filename. -/
theorem base_key_inj {n m : Str}
    (h : str "assets" ++ (str "/" ++ n) = str "assets" ++ (str "/" ++ m)) : n = m := by
  have h1 := List.append_cancel_left h
  exact List.append_cancel_left h1

/-- A base key of a non-`.gz` filename is never a compressed sibling
key. -/
theorem base_key_ne_gz_key {n m : Str} (hne : n ≠ []) (hng : takeLast 3 n ≠ str ".gz") :
    str "assets" ++ (str "/" ++ n) ≠ str "assets" ++ (str "/" ++ m) ++ str ".gz" := by
  intro h
  have hd : (str "assets" ++ (str "/" ++ n)).drop 6 =
      (str "assets" ++ (str "/" ++ m) ++ str ".gz").drop 6 := by rw [h]
  rw [assets_prefix_drop, gz_key_drop6] at hd
  have : takeLast 3 (str "/" ++ n) = str ".gz" := by
    rw [hd]
    exact gz_key_suffix _
  exact slash_name_not_gz n hne hng this

/-- Compressed sibling keys are injective in the filename. -/
theorem gz_key_inj {n m : Str}
    (h : str "assets" ++ (str "/" ++ n) ++ str ".gz" =
      str "assets" ++ (str "/" ++ m) ++ str ".gz") : n = m := by
  exact base_key_inj (List.append_cancel_right h)

/-- A successful lookup exhibits a member. -/
theorem lookup_mem {α : Type} : ∀ (l : List (Str × α)) (k : Str) (v : α),
    l.lookup k = some v → (k, v) ∈ l := by
  intro l
  induction l with
  | nil => intro k v h; exact Option.noConfusion h
  | cons p rest ih =>
    intro k v h
    rw [List.lookup_cons] at h
    cases hk : (k == p.1) with
    | true =>
      rw [hk] at h
      obtain ⟨k1, v1⟩ := p
      have heq : k = k1 := beq_iff_eq.mp hk
      cases h
      exact List.mem_cons.mpr (Or.inl (by rw [heq]))
    | false =>
      rw [hk] at h
      exact List.mem_cons.mpr (Or.inr (ih k v h))

/-- Asset-record fields at a name are stable across the listing loop as
long as no plain item with that name's key occurs. -/
theorem parse_fold_fields_stable : ∀ (objs : List (Str × S3Object))
    (st st' : List (Str × ConfigDetails) × List (Str × ExistingAsset)),
    objs.foldlM classify_item st = .ok st' →
    ∀ n, (str "assets" ++ n) ∉ objs.map Prod.fst →
      assetFields (st'.2.lookup n) = assetFields (st.2.lookup n) := by
  intro objs
  induction objs with
  | nil => intro st st' h n _; cases h; rfl
  | cons p rest ih =>
    intro st st' h n hk
    obtain ⟨st1, hstep, hrest⟩ := foldlM_cons_ok_inv h
    obtain ⟨k, o⟩ := p
    have hk_rest : (str "assets" ++ n) ∉ rest.map Prod.fst := fun hh =>
      hk (List.mem_cons.mpr (Or.inr hh))
    have hk_head : k ≠ str "assets" ++ n := fun hh =>
      hk (List.mem_cons.mpr (Or.inl hh.symm))
    rw [ih st1 st' hrest n hk_rest]
    rcases classify_item_cases hstep with
      ⟨hc, c, hb, heq⟩ | ⟨hc, ha, ⟨hg, a0, hl0, heq⟩ | ⟨hg, v, hv, heq⟩⟩ | ⟨hc, ha, heq⟩
    · subst heq; rfl
    · subst heq
      by_cases hbn : dropLast' 3 (k.drop 6) = n
      · subst hbn
        show assetFields ((upsertKeep st.2 _ _).lookup _) = _
        rw [lookup_upsertKeep_self, hl0]
        rfl
      · show assetFields ((upsertKeep st.2 _ _).lookup _) = _
        rw [lookup_upsertKeep_ne _ _ _ _ (fun hh => hbn hh.symm)]
    · subst heq
      have hne : k.drop 6 ≠ n := by
        intro hh
        have hk7 := ha.1
        have : k = str "assets" ++ n := by
          conv_lhs => rw [asset_key_decompose hk7, hh]
        exact hk_head this
      show assetFields ((upsertKeep st.2 _ _).lookup _) = _
      rw [lookup_upsertKeep_ne _ _ _ _ (fun hh => hne hh.symm)]
    · subst heq; rfl

/-- `assetFields` is `none` only on `none`. -/
theorem assetFields_none {x : Option ExistingAsset} (h : assetFields x = none) :
    x = none := by
  cases x with
  | none => rfl
  | some ea => exact Option.noConfusion h

/-- `assetFields` inversion on `some`. -/
theorem assetFields_some {x : Option ExistingAsset} {t : S3Body × Nat × Nat}
    (h : assetFields x = some t) :
    ∃ ea, x = some ea ∧ ea.content = t.1 ∧ ea.version = t.2.1 ∧ ea.versionId = t.2.2 := by
  cases x with
  | none => exact Option.noConfusion h
  | some ea =>
    refine ⟨ea, rfl, ?_⟩
    have : (ea.content, ea.version, ea.versionId) = t := by
      simpa [assetFields] using h
    rw [← this]
    exact ⟨rfl, rfl, rfl⟩

/-- The record the listing loop builds for a stored plain asset mirrors the
stored object (under distinct listing keys). -/
theorem parse_lookup_of_store (objs : List (Str × S3Object))
    (hnd : (objs.map Prod.fst).Nodup)
    {cfgs : List (Str × ConfigDetails)} {assets : List (Str × ExistingAsset)}
    (hfold : parse_bucket_objects objs = .ok (cfgs, assets)) (n : Str) (o : S3Object)
    (hk : objs.lookup (str "assets" ++ n) = some o)
    (hplain : isPlainAssetItemKey (str "assets" ++ n) = true)
    (v : Nat) (hv : o.metaVersion = some v) :
    assetFields (assets.lookup n) = some (o.body, v, o.versionId) := by
  obtain ⟨l1, l2, hsplit⟩ := List.append_of_mem (lookup_mem objs (str "assets" ++ n) o hk)
  subst hsplit
  unfold parse_bucket_objects at hfold
  obtain ⟨stm, h1, h2⟩ := foldlM_append_ok_inv hfold
  obtain ⟨stm2, hstep, h3⟩ := foldlM_cons_ok_inv h2
  have hplain' := isPlainAssetItemKey_iff.mp hplain
  have hstep_eq := classify_item_plain_eq stm (str "assets" ++ n) o v
    (fun hh => absurd (hplain'.1.1.symm.trans hh.1) (by decide))
    hplain'.1 hplain'.2 hv
  rw [hstep_eq] at hstep
  have hstm2 : stm2 = (stm.1, upsertKeep stm.2 ((str "assets" ++ n).drop 6)
      { content := o.body, version := v, versionId := o.versionId, zipped := false }) := by
    exact (Except.ok.injEq .. ▸ hstep : _).symm
  rw [List.map_append, List.nodup_append] at hnd
  have hnotin_l2 : (str "assets" ++ n) ∉ l2.map Prod.fst := by
    have hnd2 := hnd.2.1
    rw [List.map_cons] at hnd2
    exact (List.nodup_cons.mp hnd2).1
  rw [parse_fold_fields_stable l2 stm2 (cfgs, assets) h3 n hnotin_l2]
  rw [hstm2]
  show assetFields ((upsertKeep stm.2 ((str "assets" ++ n).drop 6) _).lookup n) = _
  rw [assets_prefix_drop, lookup_upsertKeep_self]
  rfl

/-- A name whose base key is not in the listing gets no asset record. -/
theorem parse_lookup_of_store_none (objs : List (Str × S3Object))
    {cfgs : List (Str × ConfigDetails)} {assets : List (Str × ExistingAsset)}
    (hfold : parse_bucket_objects objs = .ok (cfgs, assets)) (n : Str)
    (hk : (str "assets" ++ n) ∉ objs.map Prod.fst) :
    assets.lookup n = none := by
  unfold parse_bucket_objects at hfold
  have h := parse_fold_fields_stable objs ([], []) (cfgs, assets) hfold n hk
  exact assetFields_none (by rw [h]; rfl)

/-- Upserting an absent key appends. -/
theorem upsertKeep_eq_append {α : Type} : ∀ (l : List (Str × α)) (k : Str) (v : α),
    k ∉ l.map Prod.fst → upsertKeep l k v = l ++ [(k, v)] := by
  intro l
  induction l with
  | nil => intro k v _; rfl
  | cons p rest ih =>
    intro k v hk
    unfold upsertKeep
    rw [if_neg (fun hh => hk (List.mem_cons.mpr (Or.inl hh.symm)))]
    rw [ih k v (fun hh => hk (List.mem_cons.mpr (Or.inr hh)))]
    rfl

/-- Upserting a present key keeps the key list. -/
theorem upsertKeep_keys_of_mem {α : Type} : ∀ (l : List (Str × α)) (k : Str) (v : α),
    k ∈ l.map Prod.fst → (upsertKeep l k v).map Prod.fst = l.map Prod.fst := by
  intro l
  induction l with
  | nil => intro k v hk; exact absurd hk (List.not_mem_nil _)
  | cons p rest ih =>
    intro k v hk
    unfold upsertKeep
    by_cases hp : p.1 = k
    · rw [if_pos hp]
      simp [hp]
    · rw [if_neg hp]
      rw [List.map_cons, List.map_cons, ih k v]
      rcases List.mem_cons.mp hk with h | h
      · exact absurd h.symm hp
      · exact h

/-- Config-body wellformedness survives an upsert at a non-config key. -/
theorem configBodiesOK_upsert : ∀ (objs : List (Str × S3Object)) (k : Str) (o : S3Object),
    configBodiesOK objs = true → isConfigItemKey k = false →
    configBodiesOK (upsertKeep objs k o) = true := by
  intro objs
  induction objs with
  | nil =>
    intro k o _ hck
    unfold configBodiesOK
    rw [upsertKeep]
    simp [hck]
  | cons p rest ih =>
    intro k o hall hck
    unfold configBodiesOK at hall ⊢
    rw [List.all_cons, Bool.and_eq_true_iff] at hall
    unfold upsertKeep
    by_cases hp : p.1 = k
    · rw [if_pos hp, List.all_cons, Bool.and_eq_true_iff]
      exact ⟨by simp [hck], hall.2⟩
    · rw [if_neg hp, List.all_cons, Bool.and_eq_true_iff]
      exact ⟨hall.1, ih k o hall.2 hck⟩

/-- Version-metadata wellformedness survives an upsert whose object has
metadata whenever the key is plain. -/
theorem plainMetasOK_upsert : ∀ (objs : List (Str × S3Object)) (k : Str) (o : S3Object),
    plainMetasOK objs = true →
    (isPlainAssetItemKey k = true → o.metaVersion.isSome = true) →
    plainMetasOK (upsertKeep objs k o) = true := by
  intro objs
  induction objs with
  | nil =>
    intro k o _ hmv
    unfold plainMetasOK
    rw [upsertKeep]
    simp only [List.all_cons, List.all_nil, Bool.and_true]
    cases hp : isPlainAssetItemKey k with
    | false => simp [hp]
    | true => simp [hp, hmv hp]
  | cons p rest ih =>
    intro k o hall hmv
    unfold plainMetasOK at hall ⊢
    rw [List.all_cons, Bool.and_eq_true_iff] at hall
    unfold upsertKeep
    by_cases hp : p.1 = k
    · rw [if_pos hp, List.all_cons, Bool.and_eq_true_iff]
      refine ⟨?_, hall.2⟩
      cases hpk : isPlainAssetItemKey k with
      | false => simp [hpk]
      | true => simp [hpk, hmv hpk]
    · rw [if_neg hp, List.all_cons, Bool.and_eq_true_iff]
      exact ⟨hall.1, ih k o hall.2 hmv⟩

/-- The safety scan depends only on the key sequence. -/
theorem gzSafeFrom_congr_keys : ∀ (objs1 objs2 : List (Str × S3Object)) (seen : List Str),
    objs1.map Prod.fst = objs2.map Prod.fst →
    gzSafeFrom seen objs1 = gzSafeFrom seen objs2 := by
  intro objs1
  induction objs1 with
  | nil =>
    intro objs2 seen hk
    cases objs2 with
    | nil => rfl
    | cons q rest2 => exact absurd hk (by simp)
  | cons p rest ih =>
    intro objs2 seen hk
    cases objs2 with
    | nil => exact absurd hk (by simp)
    | cons q rest2 =>
      obtain ⟨k, o⟩ := p
      obtain ⟨k2, o2⟩ := q
      rw [List.map_cons, List.map_cons] at hk
      injection hk with hk1 hk2
      dsimp only at hk1
      subst hk1
      unfold gzSafeFrom
      rw [ih rest2 _ hk2]

/-- The seen set only grows along the scan. -/
theorem mem_gzSeenAfter_of_mem_seen : ∀ (objs : List (Str × S3Object)) (seen : List Str)
    (x : Str), x ∈ seen → x ∈ gzSeenAfter seen objs := by
  intro objs
  induction objs with
  | nil => intro seen x hx; exact hx
  | cons p rest ih =>
    intro seen x hx
    obtain ⟨k, o⟩ := p
    unfold gzSeenAfter
    cases hp : isPlainAssetItemKey k with
    | true =>
      simp only [hp, if_true]
      exact ih _ x (List.mem_cons.mpr (Or.inr hx))
    | false =>
      simp only [hp, Bool.false_eq_true, if_false]
      exact ih _ x hx

/-- Every plain item's name is in the final seen set. -/
theorem mem_gzSeenAfter_of_plain : ∀ (objs : List (Str × S3Object)) (seen : List Str)
    (k : Str), k ∈ objs.map Prod.fst → isPlainAssetItemKey k = true →
    k.drop 6 ∈ gzSeenAfter seen objs := by
  intro objs
  induction objs with
  | nil => intro seen k hk _; exact absurd hk (List.not_mem_nil _)
  | cons p rest ih =>
    intro seen k hk hpl
    obtain ⟨k1, o1⟩ := p
    rw [List.map_cons, List.mem_cons] at hk
    unfold gzSeenAfter
    rcases hk with h | h
    · dsimp only at h
      subst h
      rw [hpl]
      simp only [if_true]
      exact mem_gzSeenAfter_of_mem_seen _ _ _ (List.mem_cons.mpr (Or.inl rfl))
    · cases hp : isPlainAssetItemKey k1 with
      | true => simp only [if_true]; exact ih _ k h hpl
      | false => simp only [Bool.false_eq_true, if_false]; exact ih _ k h hpl

/-- Decomposition of the safety scan over an append. -/
theorem gzSafeFrom_append : ∀ (l1 l2 : List (Str × S3Object)) (seen : List Str),
    gzSafeFrom seen (l1 ++ l2) =
      (gzSafeFrom seen l1 && gzSafeFrom (gzSeenAfter seen l1) l2) := by
  intro l1
  induction l1 with
  | nil => intro l2 seen; rfl
  | cons p rest ih =>
    intro l2 seen
    obtain ⟨k, o⟩ := p
    show gzSafeFrom seen ((k, o) :: (rest ++ l2)) = _
    unfold gzSafeFrom gzSeenAfter
    rw [ih l2 _, Bool.and_assoc]
    cases l2 with
    | nil => rfl
    | cons q r2 => rfl

/-- Appending a non-compressed item preserves safety. -/
theorem gzSafeFrom_append_single_notgz (objs : List (Str × S3Object)) (k : Str)
    (o : S3Object) (hs : gzSafeFrom [] objs = true) (hgz : isGzAssetItemKey k = false) :
    gzSafeFrom [] (objs ++ [(k, o)]) = true := by
  rw [gzSafeFrom_append, Bool.and_eq_true_iff]
  refine ⟨hs, ?_⟩
  unfold gzSafeFrom
  rw [hgz]
  rfl

/-- Appending a compressed item whose base name has already been created
preserves safety. -/
theorem gzSafeFrom_append_single_gz (objs : List (Str × S3Object)) (k : Str)
    (o : S3Object) (hs : gzSafeFrom [] objs = true)
    (hbase : gzBase k ∈ gzSeenAfter [] objs) :
    gzSafeFrom [] (objs ++ [(k, o)]) = true := by
  rw [gzSafeFrom_append, Bool.and_eq_true_iff]
  refine ⟨hs, ?_⟩
  unfold gzSafeFrom
  rw [Bool.and_eq_true_iff]
  refine ⟨?_, rfl⟩
  rw [Bool.or_eq_true_iff]
  exact Or.inr (List.elem_eq_true_of_mem hbase)

/-- A put whose key is not a config key, carries version metadata, and (if
compressed) refers to an already-created base preserves the parse
preconditions. -/
theorem putObj_preserves_preconds (b : Bucket) (k : Str) (body : S3Body)
    (ct : Str) (mv : Nat) (enc : Option Str)
    (hp : parsePrecondsOK b.objects = true)
    (hcfg : isConfigItemKey k = false)
    (hsafe : isGzAssetItemKey k = false ∨ gzBase k ∈ gzSeenAfter [] b.objects) :
    parsePrecondsOK (putObj b k body ct mv enc).objects = true := by
  unfold parsePrecondsOK at hp ⊢
  rw [Bool.and_eq_true_iff, Bool.and_eq_true_iff] at hp
  show (configBodiesOK (upsertKeep b.objects k _) &&
    plainMetasOK (upsertKeep b.objects k _) && gzSafeFrom [] (upsertKeep b.objects k _)) = true
  rw [Bool.and_eq_true_iff, Bool.and_eq_true_iff]
  refine ⟨⟨configBodiesOK_upsert _ _ _ hp.1.1 hcfg,
    plainMetasOK_upsert _ _ _ hp.1.2 (fun _ => rfl)⟩, ?_⟩
  by_cases hmem : k ∈ b.objects.map Prod.fst
  · rw [gzSafeFrom_congr_keys _ b.objects [] (upsertKeep_keys_of_mem _ _ _ hmem)]
    exact hp.2
  · rw [upsertKeep_eq_append _ _ _ hmem]
    rcases hsafe with h | h
    · exact gzSafeFrom_append_single_notgz _ _ _ hp.2 h
    · exact gzSafeFrom_append_single_gz _ _ _ hp.2 h

/-- A successful listing-loop run implies all three preconditions. -/
theorem parse_fold_ok_preconds : ∀ (objs : List (Str × S3Object))
    (st st' : List (Str × ConfigDetails) × List (Str × ExistingAsset)),
    objs.foldlM classify_item st = .ok st' →
    configBodiesOK objs = true ∧ plainMetasOK objs = true ∧
      gzSafeFrom (st.2.map Prod.fst) objs = true := by
  intro objs
  induction objs with
  | nil => intro st st' _; exact ⟨rfl, rfl, rfl⟩
  | cons p rest ih =>
    intro st st' h
    obtain ⟨st1, hstep, hrest⟩ := foldlM_cons_ok_inv h
    obtain ⟨k, o⟩ := p
    obtain ⟨hcb, hpm, hsafe⟩ := ih st1 st' hrest
    rcases classify_item_cases hstep with
      ⟨hc, c, hb, heq⟩ | ⟨hc, ha, ⟨hg, a0, hl0, heq⟩ | ⟨hg, v, hv, heq⟩⟩ | ⟨hc, ha, heq⟩
    · subst heq
      refine ⟨?_, ?_, ?_⟩
      · unfold configBodiesOK
        rw [List.all_cons, Bool.and_eq_true_iff]
        exact ⟨by simp [hb], hcb⟩
      · unfold plainMetasOK
        rw [List.all_cons, Bool.and_eq_true_iff]
        refine ⟨?_, hpm⟩
        have : isPlainAssetItemKey k = false := by
          rw [Bool.eq_false_iff]
          intro hpk
          exact config_not_asset hc.1 (isPlainAssetItemKey_iff.mp hpk).1
        simp [this]
      · unfold gzSafeFrom
        rw [Bool.and_eq_true_iff]
        have hgzf : isGzAssetItemKey k = false := by
          rw [Bool.eq_false_iff]
          intro hpk
          exact config_not_asset hc.1 (isGzAssetItemKey_iff.mp hpk).1
        have hplf : isPlainAssetItemKey k = false := by
          rw [Bool.eq_false_iff]
          intro hpk
          exact config_not_asset hc.1 (isPlainAssetItemKey_iff.mp hpk).1
        refine ⟨by rw [hgzf]; rfl, ?_⟩
        rw [hplf]
        simp only [Bool.false_eq_true, if_false]
        dsimp only at hsafe
        exact hsafe
    · subst heq
      have hgzt : isGzAssetItemKey k = true := isGzAssetItemKey_iff.mpr ⟨ha, hg⟩
      have hplf : isPlainAssetItemKey k = false := by
        rw [Bool.eq_false_iff]
        intro hpk
        exact (isPlainAssetItemKey_iff.mp hpk).2 hg
      refine ⟨?_, ?_, ?_⟩
      · unfold configBodiesOK
        rw [List.all_cons, Bool.and_eq_true_iff]
        have : isConfigItemKey k = false := by
          rw [Bool.eq_false_iff]
          intro hpk
          exact config_not_asset (isConfigItemKey_iff.mp hpk).1 ha
        exact ⟨by simp [this], hcb⟩
      · unfold plainMetasOK
        rw [List.all_cons, Bool.and_eq_true_iff]
        exact ⟨by simp [hplf], hpm⟩
      · unfold gzSafeFrom
        rw [Bool.and_eq_true_iff]
        refine ⟨?_, ?_⟩
        · rw [Bool.or_eq_true_iff]
          refine Or.inr (List.elem_eq_true_of_mem ?_)
          exact (lookup_isSome_iff_mem_keys _ _).mp (by unfold gzBase; rw [hl0]; rfl)
        · rw [hplf]
          simp only [Bool.false_eq_true, if_false]
          dsimp only at hsafe
          refine gzSafeFrom_mono rest _ _ hsafe ?_
          intro x hx
          have hmem : dropLast' 3 (List.drop 6 k) ∈ List.map Prod.fst st.2 :=
            (lookup_isSome_iff_mem_keys _ _).mp (by rw [hl0]; rfl)
          rcases (mem_keys_upsertKeep _ _ _ _).mp hx with hh | hh
          · rw [hh]; exact hmem
          · exact hh
    · subst heq
      have hplt : isPlainAssetItemKey k = true := isPlainAssetItemKey_iff.mpr ⟨ha, hg⟩
      refine ⟨?_, ?_, ?_⟩
      · unfold configBodiesOK
        rw [List.all_cons, Bool.and_eq_true_iff]
        have : isConfigItemKey k = false := by
          rw [Bool.eq_false_iff]
          intro hpk
          exact config_not_asset (isConfigItemKey_iff.mp hpk).1 ha
        exact ⟨by simp [this], hcb⟩
      · unfold plainMetasOK
        rw [List.all_cons, Bool.and_eq_true_iff]
        exact ⟨by simp [hv], hpm⟩
      · unfold gzSafeFrom
        rw [Bool.and_eq_true_iff]
        have hgzf : isGzAssetItemKey k = false := by
          rw [Bool.eq_false_iff]
          intro hpk
          exact hg (isGzAssetItemKey_iff.mp hpk).2
        refine ⟨by rw [hgzf]; rfl, ?_⟩
        rw [hplt]
        simp only [if_true]
        dsimp only at hsafe
        refine gzSafeFrom_mono rest _ _ hsafe ?_
        intro x hx
        rcases (mem_keys_upsertKeep _ _ _ _).mp hx with hh | hh
        · exact List.mem_cons.mpr (Or.inl hh)
        · exact List.mem_cons.mpr (Or.inr hh)
    · subst heq
      have hcf : isConfigItemKey k = false := by
        rw [Bool.eq_false_iff]
        intro hpk
        exact hc (isConfigItemKey_iff.mp hpk)
      have haf : isAssetItemKey k = false := by
        rw [Bool.eq_false_iff]
        intro hpk
        exact ha (isAssetItemKey_iff.mp hpk)
      refine ⟨?_, ?_, ?_⟩
      · unfold configBodiesOK
        rw [List.all_cons, Bool.and_eq_true_iff]
        exact ⟨by simp [hcf], hcb⟩
      · unfold plainMetasOK
        rw [List.all_cons, Bool.and_eq_true_iff]
        exact ⟨by simp [isPlainAssetItemKey, haf], hpm⟩
      · unfold gzSafeFrom
        rw [Bool.and_eq_true_iff]
        have hgzf : isGzAssetItemKey k = false := by simp [isGzAssetItemKey, haf]
        refine ⟨by rw [hgzf]; rfl, ?_⟩
        rw [show isPlainAssetItemKey k = false by simp [isPlainAssetItemKey, haf]]
        simp only [Bool.false_eq_true, if_false]
        exact hsafe

/-- Upserting preserves distinctness of keys. -/
theorem nodup_keys_upsertKeep {α : Type} (l : List (Str × α)) (k : Str) (v : α)
    (hnd : (l.map Prod.fst).Nodup) : ((upsertKeep l k v).map Prod.fst).Nodup := by
  by_cases hmem : k ∈ l.map Prod.fst
  · rw [upsertKeep_keys_of_mem l k v hmem]
    exact hnd
  · rw [upsertKeep_eq_append l k v hmem, List.map_append]
    rw [List.nodup_append]
    exact ⟨hnd, List.nodup_singleton _, fun x hx hx1 => by
      rw [List.mem_singleton.mp hx1] at hx
      exact hmem hx⟩

/-- Under distinct keys, membership determines the lookup. -/
theorem lookup_eq_of_mem_nodup {α : Type} : ∀ (l : List (Str × α)),
    (l.map Prod.fst).Nodup → ∀ k v, (k, v) ∈ l → l.lookup k = some v := by
  intro l
  induction l with
  | nil => intro _ k v h; exact absurd h (List.not_mem_nil _)
  | cons p rest ih =>
    intro hnd k v h
    rw [List.map_cons, List.nodup_cons] at hnd
    rw [List.lookup_cons]
    rcases List.mem_cons.mp h with heq | hmem
    · rw [show k = p.1 from congrArg Prod.fst heq]
      simp only [beq_self_eq_true]
      exact congrArg some (congrArg Prod.snd heq).symm
    · cases hbeq : k == p.1 with
      | true =>
        rw [beq_iff_eq.mp hbeq] at hmem ⊢
        exact absurd (List.mem_map.mpr ⟨(p.1, v), hmem, rfl⟩) hnd.1
      | false => exact ih hnd.2 k v hmem

/-- Membership of an item of an `all`-true list gives its condition. -/
theorem plainMetasOK_lookup {objs : List (Str × S3Object)}
    (h : plainMetasOK objs = true) {k : Str} {o : S3Object} (hm : (k, o) ∈ objs)
    (hp : isPlainAssetItemKey k = true) : o.metaVersion.isSome = true := by
  unfold plainMetasOK at h
  have := List.all_eq_true.mp h (k, o) hm
  rw [hp] at this
  simpa using this

/-- Reverse correspondence: every record the listing loop builds mirrors a
stored object under the matching base key. -/
theorem parsed_record_store (objs : List (Str × S3Object))
    (hnd : (objs.map Prod.fst).Nodup)
    {cfgs : List (Str × ConfigDetails)} {assets : List (Str × ExistingAsset)}
    (hfold : parse_bucket_objects objs = .ok (cfgs, assets)) (n : Str) (ea : ExistingAsset)
    (hea : assets.lookup n = some ea) :
    ∃ o, objs.lookup (str "assets" ++ n) = some o ∧ o.body = ea.content ∧
      o.metaVersion = some ea.version ∧ o.versionId = ea.versionId := by
  have hmemn : n ∈ assets.map Prod.fst :=
    (lookup_isSome_iff_mem_keys _ _).mp (by rw [hea]; rfl)
  rcases parse_fold_keys_origin objs ([], []) (cfgs, assets) hfold n hmemn with
    hin | ⟨p, hp, hplain, hdrop⟩
  · exact absurd hin (List.not_mem_nil _)
  · have h7 := (isPlainAssetItemKey_iff.mp hplain).1.1
    have hkey : p.1 = str "assets" ++ n := by
      conv_lhs => rw [asset_key_decompose h7, hdrop]
    obtain ⟨k, o⟩ := p
    dsimp only at hkey hplain hdrop
    subst hkey
    have hk : objs.lookup (str "assets" ++ n) = some o :=
      lookup_eq_of_mem_nodup objs hnd _ o hp
    have hpm : plainMetasOK objs = true := by
      have hpre := parse_fold_ok_preconds objs ([], []) (cfgs, assets) hfold
      exact hpre.2.1
    have hms : o.metaVersion.isSome = true := plainMetasOK_lookup hpm hp hplain
    obtain ⟨v, hv⟩ := Option.isSome_iff_exists.mp hms
    have hfields := parse_lookup_of_store objs hnd hfold n o hk hplain v hv
    rw [hea] at hfields
    have hcmp : (ea.content, ea.version, ea.versionId) = (o.body, v, o.versionId) := by
      have := hfields
      unfold assetFields at this
      exact Option.some.inj this
    refine ⟨o, hk, ?_, ?_, ?_⟩
    · exact (congrArg Prod.fst hcmp).symm
    · rw [hv]
      exact congrArg some (congrArg (fun t => t.2.1) hcmp).symm
    · exact (congrArg (fun t => t.2.2) hcmp).symm

/-- Extensionality of file entries. -/
theorem fileEntry_ext (a b : FileEntry) (h1 : a.name = b.name) (h2 : a.size = b.size)
    (h3 : a.ftype = b.ftype) (h4 : a.url = b.url) (h5 : a.version = b.version)
    (h6 : a.zsize = b.zsize) (h7 : a.zurl = b.zurl) : a = b := by
  cases a
  cases b
  dsimp only at h1 h2 h3 h4 h5 h6 h7
  subst h1 h2 h3 h4 h5 h6 h7
  rfl


/-- Full characterization of one successful non-`.gz` step of the
per-asset loop: the step upserts one entry keyed by the slashed name,
appends at most the base and sibling keys to the put list, touches no
other store key, preserves the listing preconditions, and leaves the
stored base object mirroring the entry (bytes, version metadata,
version id); the entry's version either is one more than the recorded
existing version (upload performed) or is the existing record's version
(byte-identical content, no puts, store untouched). -/
theorem process_asset_ok_spec (region : Str) (now : Nat) (compatible : Bool)
    (localDir : List (Str × Str)) (existing_assets : List (Str × ExistingAsset))
    (b : Bucket) (cfgs : List (Str × ConfigDetails)) (ua : List (Str × FileEntry))
    (puts : List Str) (n c : Str)
    (st1 : Bucket × List (Str × ConfigDetails) × List (Str × FileEntry) × List Str)
    (hne : n ≠ []) (hgz : takeLast 3 n ≠ str ".gz")
    (hstep : process_asset region now compatible localDir existing_assets
      (b, cfgs, ua, puts) (n, c) = .ok st1)
    (hbm : ∀ ea, existing_assets.lookup (str "/" ++ n) = some ea →
      ∃ o, b.objects.lookup (str "assets" ++ (str "/" ++ n)) = some o ∧
        o.body = ea.content ∧ o.metaVersion = some ea.version) :
    ∃ e o ps,
      st1.1.name = b.name ∧
      st1.2.2.1 = upsertKeep ua (str "/" ++ n) e ∧
      st1.2.2.2 = puts ++ ps ∧
      (∀ k, k ≠ str "assets" ++ (str "/" ++ n) →
        k ≠ str "assets" ++ (str "/" ++ n) ++ str ".gz" →
        st1.1.objects.lookup k = b.objects.lookup k) ∧
      ((b.objects.map Prod.fst).Nodup → (st1.1.objects.map Prod.fst).Nodup) ∧
      (parsePrecondsOK b.objects = true → parsePrecondsOK st1.1.objects = true) ∧
      st1.1.objects.lookup (str "assets" ++ (str "/" ++ n)) = some o ∧
      o.body = S3Body.bytes c ∧
      o.metaVersion = some e.version ∧
      e.name = str "/" ++ n ∧
      e.size = o.body.len ∧
      e.ftype = get_asset_type n ∧
      e.url = asset_url region b.name (str "/" ++ n) o.versionId ∧
      (pyTruthy (localDir.lookup (n ++ str ".gz")) = true →
        ∃ zo, st1.1.objects.lookup (str "assets" ++ (str "/" ++ n) ++ str ".gz") = some zo ∧
          e.zsize = some zo.body.len ∧
          e.zurl = some (asset_zurl region b.name (str "/" ++ n) zo.versionId)) ∧
      (pyTruthy (localDir.lookup (n ++ str ".gz")) = false →
        e.zsize = none ∧ e.zurl = none) ∧
      (∀ k ∈ ps, k = str "assets" ++ (str "/" ++ n) ∨
        k = str "assets" ++ (str "/" ++ n) ++ str ".gz") ∧
      (((str "assets" ++ (str "/" ++ n)) ∈ ps ∧
         e.version = (match existing_assets.lookup (str "/" ++ n) with
           | some ea => ea.version | none => 0) + 1) ∨
       (ps = [] ∧ st1.1 = b ∧
         ∃ ea, existing_assets.lookup (str "/" ++ n) = some ea ∧
           ea.content = S3Body.bytes c ∧ e.version = ea.version)) := by
  unfold process_asset at hstep
  dsimp only at hstep
  rw [if_neg hgz] at hstep
  cases hex0 : existing_assets.lookup (str "/" ++ n) with
  | none =>
    simp only [hex0] at hstep
    cases hr : update_asset b (str "/" ++ n) (get_asset_type n) c (0 + 1)
        (localDir.lookup (n ++ str ".gz")) compatible cfgs true region now with
    | error msg =>
      rw [hr, except_bind_err] at hstep
      exact Except.noConfusion hstep
    | ok r =>
      rw [hr, except_bind_ok] at hstep
      have hst1 := (Except.ok.inj hstep).symm
      rw [update_asset_upload_eq] at hr
      cases hz : pyTruthy (localDir.lookup (n ++ str ".gz")) with
      | false =>
        simp only [hz, Bool.false_eq_true, if_false] at hr
        have hR := Except.ok.inj hr
        subst hR
        subst hst1
        refine ⟨_,
          { body := S3Body.bytes c, metaVersion := some (0 + 1),
            contentType := asset_content_type (str "/" ++ n) (get_asset_type n),
            contentEncoding := none, versionId := b.nextVid },
          [str "assets" ++ (str "/" ++ n)],
          rfl, rfl, ?_, ?_, ?_, ?_, ?_, ?_, ?_, ?_, ?_, ?_, ?_, ?_, ?_, ?_, ?_⟩
        · rfl
        · intro k hk1 _
          exact lookup_upsertKeep_ne _ _ _ _ hk1
        · intro hnd
          exact nodup_keys_upsertKeep _ _ _ hnd
        · intro hp
          exact putObj_preserves_preconds b _ _ _ _ _ hp (base_key_not_config n)
            (Or.inl (base_key_not_gz n hne hgz))
        · exact lookup_upsertKeep_self _ _ _
        · rfl
        · rfl
        · rfl
        · rfl
        · rfl
        · rfl
        · intro h
          exact Bool.noConfusion h
        · intro _
          exact ⟨rfl, rfl⟩
        · intro k hk
          exact Or.inl (List.mem_singleton.mp hk)
        · exact Or.inl ⟨List.mem_singleton.mpr rfl, rfl⟩
      | true =>
        simp only [hz, if_true] at hr
        have hR := Except.ok.inj hr
        subst hR
        subst hst1
        refine ⟨_,
          { body := S3Body.bytes c, metaVersion := some (0 + 1),
            contentType := asset_content_type (str "/" ++ n) (get_asset_type n),
            contentEncoding := none, versionId := b.nextVid },
          [str "assets" ++ (str "/" ++ n), str "assets" ++ (str "/" ++ n) ++ str ".gz"],
          rfl, rfl, ?_, ?_, ?_, ?_, ?_, ?_, ?_, ?_, ?_, ?_, ?_, ?_, ?_, ?_, ?_⟩
        · rfl
        · intro k hk1 hk2
          exact (lookup_upsertKeep_ne _ _ _ _ hk2).trans
            (lookup_upsertKeep_ne _ _ _ _ hk1)
        · intro hnd
          exact nodup_keys_upsertKeep _ _ _ (nodup_keys_upsertKeep _ _ _ hnd)
        · intro hp
          dsimp only
          have hp1 := putObj_preserves_preconds b (str "assets" ++ (str "/" ++ n))
            (S3Body.bytes c) (asset_content_type (str "/" ++ n) (get_asset_type n))
            (0 + 1) none hp (base_key_not_config n) (Or.inl (base_key_not_gz n hne hgz))
          refine putObj_preserves_preconds _ (str "assets" ++ (str "/" ++ n) ++ str ".gz")
            (S3Body.bytes ((localDir.lookup (n ++ str ".gz")).getD []))
            (asset_content_type (str "/" ++ n) (get_asset_type n)) (0 + 1)
            (some (str "gzip")) hp1 (gz_key_not_config n) (Or.inr ?_)
          rw [gz_key_base]
          have hmem : (str "assets" ++ (str "/" ++ n)) ∈
              (putObj b (str "assets" ++ (str "/" ++ n)) (.bytes c)
                (asset_content_type (str "/" ++ n) (get_asset_type n)) (0 + 1)
                none).objects.map Prod.fst :=
            (mem_keys_upsertKeep _ _ _ _).mpr (Or.inl rfl)
          have hseen := mem_gzSeenAfter_of_plain _ [] _ hmem (base_key_plain n hne hgz)
          rw [assets_prefix_drop] at hseen
          exact hseen
        · exact (lookup_upsertKeep_ne _ _ _ _ (base_key_ne_gz_key hne hgz)).trans
            (lookup_upsertKeep_self _ _ _)
        · rfl
        · rfl
        · rfl
        · rfl
        · rfl
        · rfl
        · intro _
          exact ⟨_, lookup_upsertKeep_self _ _ _, rfl, rfl⟩
        · intro h
          exact Bool.noConfusion h
        · intro k hk
          rcases List.mem_cons.mp hk with h | h
          · exact Or.inl h
          · exact Or.inr (List.mem_singleton.mp h)
        · exact Or.inl ⟨List.mem_cons_self _ _, rfl⟩
  | some ea =>
    simp only [hex0] at hstep
    by_cases heac : ea.content = S3Body.bytes c
    · rw [if_pos heac] at hstep
      obtain ⟨o, ho, hob, hom⟩ := hbm ea hex0
      cases hr : update_asset b (str "/" ++ n) (get_asset_type n) c (0 + 1)
          (localDir.lookup (n ++ str ".gz")) compatible cfgs false region now with
      | error msg =>
        rw [hr, except_bind_err] at hstep
        exact Except.noConfusion hstep
      | ok r =>
        rw [hr, except_bind_ok] at hstep
        have hst1 := (Except.ok.inj hstep).symm
        rw [update_asset_noupload_eq b (str "/" ++ n) (get_asset_type n) c (0 + 1)
          (localDir.lookup (n ++ str ".gz")) compatible cfgs region now o ea.version
          ho hom] at hr
        cases hz : pyTruthy (localDir.lookup (n ++ str ".gz")) with
        | false =>
          simp only [hz, Bool.false_eq_true, if_false] at hr
          have hR := Except.ok.inj hr
          subst hR
          subst hst1
          refine ⟨_, o, [], rfl, rfl, ?_, ?_, ?_, ?_, ?_, ?_, ?_, ?_, ?_, ?_, ?_, ?_,
            ?_, ?_, ?_⟩
          · rfl
          · intro k _ _
            rfl
          · exact fun h => h
          · exact fun h => h
          · exact ho
          · exact hob.trans heac
          · exact hom
          · rfl
          · rfl
          · rfl
          · rfl
          · intro h
            exact Bool.noConfusion h
          · intro _
            exact ⟨rfl, rfl⟩
          · intro k hk
            exact absurd hk (List.not_mem_nil k)
          · exact Or.inr ⟨rfl, rfl, ea, rfl, heac, rfl⟩
        | true =>
          simp only [hz, if_true] at hr
          cases hzo : getObj b (str "assets" ++ (str "/" ++ n) ++ str ".gz") with
          | none =>
            simp only [hzo] at hr
            exact Except.noConfusion hr
          | some zobj =>
            simp only [hzo] at hr
            have hR := Except.ok.inj hr
            subst hR
            subst hst1
            refine ⟨_, o, [], rfl, rfl, ?_, ?_, ?_, ?_, ?_, ?_, ?_, ?_, ?_, ?_, ?_, ?_,
              ?_, ?_, ?_⟩
            · rfl
            · intro k _ _
              rfl
            · exact fun h => h
            · exact fun h => h
            · exact ho
            · exact hob.trans heac
            · exact hom
            · rfl
            · rfl
            · rfl
            · rfl
            · intro _
              exact ⟨zobj, hzo, rfl, rfl⟩
            · intro h
              exact Bool.noConfusion h
            · intro k hk
              exact absurd hk (List.not_mem_nil k)
            · exact Or.inr ⟨rfl, rfl, ea, rfl, heac, rfl⟩
    · rw [if_neg heac] at hstep
      cases hr : update_asset b (str "/" ++ n) (get_asset_type n) c (ea.version + 1)
          (localDir.lookup (n ++ str ".gz")) compatible cfgs true region now with
      | error msg =>
        rw [hr, except_bind_err] at hstep
        exact Except.noConfusion hstep
      | ok r =>
        rw [hr, except_bind_ok] at hstep
        have hst1 := (Except.ok.inj hstep).symm
        rw [update_asset_upload_eq] at hr
        cases hz : pyTruthy (localDir.lookup (n ++ str ".gz")) with
        | false =>
          simp only [hz, Bool.false_eq_true, if_false] at hr
          have hR := Except.ok.inj hr
          subst hR
          subst hst1
          refine ⟨_,
            { body := S3Body.bytes c, metaVersion := some (ea.version + 1),
              contentType := asset_content_type (str "/" ++ n) (get_asset_type n),
              contentEncoding := none, versionId := b.nextVid },
            [str "assets" ++ (str "/" ++ n)],
            rfl, rfl, ?_, ?_, ?_, ?_, ?_, ?_, ?_, ?_, ?_, ?_, ?_, ?_, ?_, ?_, ?_⟩
          · rfl
          · intro k hk1 _
            exact lookup_upsertKeep_ne _ _ _ _ hk1
          · intro hnd
            exact nodup_keys_upsertKeep _ _ _ hnd
          · intro hp
            exact putObj_preserves_preconds b _ _ _ _ _ hp (base_key_not_config n)
              (Or.inl (base_key_not_gz n hne hgz))
          · exact lookup_upsertKeep_self _ _ _
          · rfl
          · rfl
          · rfl
          · rfl
          · rfl
          · rfl
          · intro h
            exact Bool.noConfusion h
          · intro _
            exact ⟨rfl, rfl⟩
          · intro k hk
            exact Or.inl (List.mem_singleton.mp hk)
          · exact Or.inl ⟨List.mem_singleton.mpr rfl, rfl⟩
        | true =>
          simp only [hz, if_true] at hr
          have hR := Except.ok.inj hr
          subst hR
          subst hst1
          refine ⟨_,
            { body := S3Body.bytes c, metaVersion := some (ea.version + 1),
              contentType := asset_content_type (str "/" ++ n) (get_asset_type n),
              contentEncoding := none, versionId := b.nextVid },
            [str "assets" ++ (str "/" ++ n), str "assets" ++ (str "/" ++ n) ++ str ".gz"],
            rfl, rfl, ?_, ?_, ?_, ?_, ?_, ?_, ?_, ?_, ?_, ?_, ?_, ?_, ?_, ?_, ?_⟩
          · rfl
          · intro k hk1 hk2
            exact (lookup_upsertKeep_ne _ _ _ _ hk2).trans
              (lookup_upsertKeep_ne _ _ _ _ hk1)
          · intro hnd
            exact nodup_keys_upsertKeep _ _ _ (nodup_keys_upsertKeep _ _ _ hnd)
          · intro hp
            dsimp only
            have hp1 := putObj_preserves_preconds b (str "assets" ++ (str "/" ++ n))
              (S3Body.bytes c) (asset_content_type (str "/" ++ n) (get_asset_type n))
              (ea.version + 1) none hp (base_key_not_config n)
              (Or.inl (base_key_not_gz n hne hgz))
            refine putObj_preserves_preconds _ (str "assets" ++ (str "/" ++ n) ++ str ".gz")
              (S3Body.bytes ((localDir.lookup (n ++ str ".gz")).getD []))
              (asset_content_type (str "/" ++ n) (get_asset_type n)) (ea.version + 1)
              (some (str "gzip")) hp1 (gz_key_not_config n) (Or.inr ?_)
            rw [gz_key_base]
            have hmem : (str "assets" ++ (str "/" ++ n)) ∈
                (putObj b (str "assets" ++ (str "/" ++ n)) (.bytes c)
                  (asset_content_type (str "/" ++ n) (get_asset_type n)) (ea.version + 1)
                  none).objects.map Prod.fst :=
              (mem_keys_upsertKeep _ _ _ _).mpr (Or.inl rfl)
            have hseen := mem_gzSeenAfter_of_plain _ [] _ hmem (base_key_plain n hne hgz)
            rw [assets_prefix_drop] at hseen
            exact hseen
          · exact (lookup_upsertKeep_ne _ _ _ _ (base_key_ne_gz_key hne hgz)).trans
              (lookup_upsertKeep_self _ _ _)
          · rfl
          · rfl
          · rfl
          · rfl
          · rfl
          · rfl
          · intro _
            exact ⟨_, lookup_upsertKeep_self _ _ _, rfl, rfl⟩
          · intro h
            exact Bool.noConfusion h
          · intro k hk
            rcases List.mem_cons.mp hk with h | h
            · exact Or.inl h
            · exact Or.inr (List.mem_singleton.mp h)
          · exact Or.inl ⟨List.mem_cons_self _ _, rfl⟩

/-- Fold inversion across a cons, for any state and element types. -/
theorem foldlM_cons_ok_inv_gen {α β : Type} {f : β → α → Except String β} {p : α}
    {l : List α} {st st' : β}
    (h : ((p :: l).foldlM f st) = .ok st') :
    ∃ st1, f st p = .ok st1 ∧ l.foldlM f st1 = .ok st' := by
  rw [List.foldlM_cons] at h
  cases hm : f st p with
  | error e => rw [hm, except_bind_err] at h; exact Except.noConfusion h
  | ok st1 => rw [hm, except_bind_ok] at h; exact ⟨st1, rfl, h⟩

/-- Compressed files of the output directory are skipped by the per-asset
loop. -/
theorem process_asset_gz_eq (region : Str) (now : Nat) (compatible : Bool)
    (localDir : List (Str × Str)) (existing_assets : List (Str × ExistingAsset))
    (st : Bucket × List (Str × ConfigDetails) × List (Str × FileEntry) × List Str)
    (n c : Str) (hgz : takeLast 3 n = str ".gz") :
    process_asset region now compatible localDir existing_assets st (n, c) = .ok st := by
  obtain ⟨b, cfgs, ua, puts⟩ := st
  unfold process_asset
  dsimp only
  rw [if_pos hgz]

/-- The full per-asset loop invariant: over any run of the loop the bucket
name is unchanged, key distinctness and the listing preconditions are
preserved, only the base/sibling keys of the processed non-compressed
names are put or touched, the entry map changes only at the processed
slashed names, and each processed name ends with one entry whose version
either is one more than the recorded existing version (its base key was
put) or equals the untouched existing record's version (no put). -/
theorem process_fold_spec (region : Str) (now : Nat) (compatible : Bool)
    (localDir : List (Str × Str)) (existing_assets : List (Str × ExistingAsset))
    (objs0 : List (Str × S3Object))
    (hexist : ∀ m ea, existing_assets.lookup m = some ea →
      ∃ o, objs0.lookup (str "assets" ++ m) = some o ∧ o.body = ea.content ∧
        o.metaVersion = some ea.version) :
    ∀ (assets : List (Str × Str))
      (st st' : Bucket × List (Str × ConfigDetails) × List (Str × FileEntry) × List Str),
    assets.foldlM (process_asset region now compatible localDir existing_assets) st =
      .ok st' →
    (assets.map Prod.fst).Nodup →
    (∀ p ∈ assets, p.1 ≠ []) →
    (∀ p ∈ assets, takeLast 3 p.1 ≠ str ".gz" →
      st.1.objects.lookup (str "assets" ++ (str "/" ++ p.1)) =
        objs0.lookup (str "assets" ++ (str "/" ++ p.1))) →
    (st'.1.name = st.1.name ∧
     ((st.1.objects.map Prod.fst).Nodup → (st'.1.objects.map Prod.fst).Nodup) ∧
     (parsePrecondsOK st.1.objects = true → parsePrecondsOK st'.1.objects = true) ∧
     (∀ k, (∀ p ∈ assets, takeLast 3 p.1 ≠ str ".gz" →
         k ≠ str "assets" ++ (str "/" ++ p.1) ∧
         k ≠ str "assets" ++ (str "/" ++ p.1) ++ str ".gz") →
       st'.1.objects.lookup k = st.1.objects.lookup k) ∧
     ∃ newPuts, st'.2.2.2 = st.2.2.2 ++ newPuts ∧
       (∀ k ∈ newPuts, ∃ p, p ∈ assets ∧ takeLast 3 p.1 ≠ str ".gz" ∧
         (k = str "assets" ++ (str "/" ++ p.1) ∨
          k = str "assets" ++ (str "/" ++ p.1) ++ str ".gz")) ∧
       (∀ m, (∀ p ∈ assets, takeLast 3 p.1 ≠ str ".gz" → m ≠ str "/" ++ p.1) →
         st'.2.2.1.lookup m = st.2.2.1.lookup m) ∧
       (∀ p ∈ assets, takeLast 3 p.1 ≠ str ".gz" →
         ∃ e o, st'.2.2.1.lookup (str "/" ++ p.1) = some e ∧
           st'.1.objects.lookup (str "assets" ++ (str "/" ++ p.1)) = some o ∧
           o.body = S3Body.bytes p.2 ∧
           o.metaVersion = some e.version ∧
           e.name = str "/" ++ p.1 ∧
           e.size = o.body.len ∧
           e.ftype = get_asset_type p.1 ∧
           e.url = asset_url region st.1.name (str "/" ++ p.1) o.versionId ∧
           (pyTruthy (localDir.lookup (p.1 ++ str ".gz")) = true →
             ∃ zo, st'.1.objects.lookup
                 (str "assets" ++ (str "/" ++ p.1) ++ str ".gz") = some zo ∧
               e.zsize = some zo.body.len ∧
               e.zurl = some (asset_zurl region st.1.name (str "/" ++ p.1) zo.versionId)) ∧
           (pyTruthy (localDir.lookup (p.1 ++ str ".gz")) = false →
             e.zsize = none ∧ e.zurl = none) ∧
           (((str "assets" ++ (str "/" ++ p.1)) ∈ newPuts ∧
              e.version = (match existing_assets.lookup (str "/" ++ p.1) with
                | some ea => ea.version | none => 0) + 1) ∨
            ((str "assets" ++ (str "/" ++ p.1)) ∉ newPuts ∧
              ∃ ea, existing_assets.lookup (str "/" ++ p.1) = some ea ∧
                ea.content = S3Body.bytes p.2 ∧ e.version = ea.version)))) := by
  intro assets
  induction assets with
  | nil =>
    intro st st' h _ _ _
    cases h
    exact ⟨rfl, fun h => h, fun h => h, fun _ _ => rfl,
      [], (List.append_nil _).symm, fun k hk => absurd hk (List.not_mem_nil k),
      fun m _ => rfl, fun p hp => absurd hp (List.not_mem_nil p)⟩
  | cons hd tl ih =>
    intro st st' h hnd hnem hstore
    obtain ⟨bb, ccfgs, uua, ppts⟩ := st
    dsimp only at hstore ⊢
    obtain ⟨st1, hstep, hrest⟩ := foldlM_cons_ok_inv_gen h
    obtain ⟨n, c⟩ := hd
    rw [List.map_cons, List.nodup_cons] at hnd
    have hnem_tl : ∀ p ∈ tl, p.1 ≠ [] :=
      fun p hp => hnem p (List.mem_cons.mpr (Or.inr hp))
    have hne_n : n ≠ [] := hnem (n, c) (List.mem_cons_self _ _)
    have hmem_map : ∀ q ∈ tl, q.1 ∈ tl.map Prod.fst :=
      fun q hq => List.mem_map.mpr ⟨q, hq, rfl⟩
    by_cases hgzn : takeLast 3 n = str ".gz"
    · -- skip step
      rw [process_asset_gz_eq region now compatible localDir existing_assets
        (bb, ccfgs, uua, ppts) n c hgzn] at hstep
      have hid := (Except.ok.inj hstep)
      subst hid
      obtain ⟨h1, h2, h3, h4, newPuts, h5, h6, h7, h8⟩ :=
        ih (bb, ccfgs, uua, ppts) st' hrest hnd.2 hnem_tl
          (fun p hp hg => hstore p (List.mem_cons.mpr (Or.inr hp)) hg)
      refine ⟨h1, h2, h3, ?_, newPuts, h5, ?_, ?_, ?_⟩
      · intro k hk
        exact h4 k (fun p hp => hk p (List.mem_cons.mpr (Or.inr hp)))
      · intro k hk
        obtain ⟨p, hp, hpg, hpk⟩ := h6 k hk
        exact ⟨p, List.mem_cons.mpr (Or.inr hp), hpg, hpk⟩
      · intro m hm
        exact h7 m (fun p hp => hm p (List.mem_cons.mpr (Or.inr hp)))
      · intro p hp hpg
        rcases List.mem_cons.mp hp with heq | hmem
        · rw [heq] at hpg
          exact absurd hgzn hpg
        · exact h8 p hmem hpg
    · -- processing step
      have hbm_cur : ∀ ea, existing_assets.lookup (str "/" ++ n) = some ea →
          ∃ o, bb.objects.lookup (str "assets" ++ (str "/" ++ n)) = some o ∧
            o.body = ea.content ∧ o.metaVersion = some ea.version := by
        intro ea hea
        obtain ⟨o, ho, hb2, hm2⟩ := hexist (str "/" ++ n) ea hea
        refine ⟨o, ?_, hb2, hm2⟩
        rw [hstore (n, c) (List.mem_cons_self _ _) hgzn]
        exact ho
      obtain ⟨e, o, ps, s1, s2, s3, s4, s5, s6, s7, s8, s9, s10, s11, s12, s13,
        s14, s15, s16, s17⟩ :=
        process_asset_ok_spec region now compatible localDir existing_assets
          bb ccfgs uua ppts n c st1 hne_n hgzn hstep hbm_cur
      have hstore_tl : ∀ p ∈ tl, takeLast 3 p.1 ≠ str ".gz" →
          st1.1.objects.lookup (str "assets" ++ (str "/" ++ p.1)) =
            objs0.lookup (str "assets" ++ (str "/" ++ p.1)) := by
        intro p hp hg
        have hnn : p.1 ≠ n := fun hh => hnd.1 (hh ▸ hmem_map p hp)
        have hk1 : str "assets" ++ (str "/" ++ p.1) ≠ str "assets" ++ (str "/" ++ n) :=
          fun hh => hnn (base_key_inj hh)
        have hk2 : str "assets" ++ (str "/" ++ p.1) ≠
            str "assets" ++ (str "/" ++ n) ++ str ".gz" :=
          base_key_ne_gz_key (hnem_tl p hp) hg
        rw [s4 _ hk1 hk2]
        exact hstore p (List.mem_cons.mpr (Or.inr hp)) hg
      obtain ⟨h1, h2, h3, h4, newPuts, h5, h6, h7, h8⟩ :=
        ih st1 st' hrest hnd.2 hnem_tl hstore_tl
      refine ⟨h1.trans s1, fun hnd0 => h2 (s5 hnd0), fun hp0 => h3 (s6 hp0), ?_,
        ps ++ newPuts, ?_, ?_, ?_, ?_⟩
      · intro k hk
        have hcond_hd := hk (n, c) (List.mem_cons_self _ _) hgzn
        exact (h4 k (fun p hp hg => hk p (List.mem_cons.mpr (Or.inr hp)) hg)).trans
          (s4 k hcond_hd.1 hcond_hd.2)
      · rw [h5, s3, List.append_assoc]
      · intro k hk
        rcases List.mem_append.mp hk with hk | hk
        · exact ⟨(n, c), List.mem_cons_self _ _, hgzn, s16 k hk⟩
        · obtain ⟨p, hp, hpg, hpk⟩ := h6 k hk
          exact ⟨p, List.mem_cons.mpr (Or.inr hp), hpg, hpk⟩
      · intro m hm
        rw [h7 m (fun p hp hg => hm p (List.mem_cons.mpr (Or.inr hp)) hg), s2]
        exact lookup_upsertKeep_ne _ _ _ _ (hm (n, c) (List.mem_cons_self _ _) hgzn)
      · intro p hp hg
        rcases List.mem_cons.mp hp with heq | hmem
        · subst heq
          dsimp only at hg ⊢
          have hlook : st'.2.2.1.lookup (str "/" ++ n) =
              st1.2.2.1.lookup (str "/" ++ n) := by
            refine h7 _ ?_
            intro q hq _ hh
            refine hnd.1 ?_
            rw [List.append_cancel_left hh]
            exact hmem_map q hq
          have hbase_fr : st'.1.objects.lookup (str "assets" ++ (str "/" ++ n)) =
              st1.1.objects.lookup (str "assets" ++ (str "/" ++ n)) := by
            refine h4 _ ?_
            intro q hq hgq
            have hqn : q.1 ≠ n := fun hh => hnd.1 (hh ▸ hmem_map q hq)
            exact ⟨fun hh => hqn (base_key_inj hh).symm,
              (base_key_ne_gz_key hne_n hgzn :
                str "assets" ++ (str "/" ++ n) ≠
                  str "assets" ++ (str "/" ++ q.1) ++ str ".gz")⟩
          have hgz_fr : st'.1.objects.lookup
                (str "assets" ++ (str "/" ++ n) ++ str ".gz") =
              st1.1.objects.lookup (str "assets" ++ (str "/" ++ n) ++ str ".gz") := by
            refine h4 _ ?_
            intro q hq hgq
            have hqn : q.1 ≠ n := fun hh => hnd.1 (hh ▸ hmem_map q hq)
            refine ⟨fun hh => (base_key_ne_gz_key (hnem_tl q hq) hgq) hh.symm, ?_⟩
            exact fun hh => hqn (gz_key_inj hh).symm
          refine ⟨e, o, ?_, hbase_fr.trans s7, s8, s9, s10, s11, s12, s13, ?_, s15, ?_⟩
          · rw [hlook, s2]
            exact lookup_upsertKeep_self _ _ _
          · intro hzt
            obtain ⟨zo, hzo, hzs, hzu⟩ := s14 hzt
            exact ⟨zo, hgz_fr.trans hzo, hzs, hzu⟩
          · rcases s17 with ⟨hmemps, hver⟩ | ⟨hpsnil, _, ea, hea, heac, hver⟩
            · exact Or.inl ⟨List.mem_append.mpr (Or.inl hmemps), hver⟩
            · refine Or.inr ⟨?_, ea, hea, heac, hver⟩
              intro hin
              rw [hpsnil, List.nil_append] at hin
              obtain ⟨q, hq, hgq, hk⟩ := h6 _ hin
              rcases hk with hk | hk
              · refine hnd.1 ?_
                rw [base_key_inj hk]
                exact hmem_map q hq
              · exact base_key_ne_gz_key hne_n hgzn hk
        · obtain ⟨e', o', q1, q2, q3, q4, q5, q6, q7, q8, q9, q10, q11⟩ :=
            h8 p hmem hg
          rw [s1] at q8
          refine ⟨e', o', q1, q2, q3, q4, q5, q6, q7, q8, ?_, q10, ?_⟩
          · intro hzt
            obtain ⟨zo, a1, a2, a3⟩ := q9 hzt
            rw [s1] at a3
            exact ⟨zo, a1, a2, a3⟩
          · rcases q11 with ⟨hin, hver⟩ | ⟨hnin, ea, hea, heac, hver⟩
            · exact Or.inl ⟨List.mem_append.mpr (Or.inr hin), hver⟩
            · refine Or.inr ⟨?_, ea, hea, heac, hver⟩
              intro hin
              rcases List.mem_append.mp hin with hin | hin
              · have hqn : p.1 ≠ n := fun hh => hnd.1 (hh ▸ hmem_map p hmem)
                rcases s16 _ hin with hk | hk
                · exact hqn (base_key_inj hk)
                · exact base_key_ne_gz_key (hnem_tl p hmem) hg hk
              · exact hnin hin

/-- Inversion of a successful bind. -/
theorem except_bind_ok_inv {α β : Type} {x : Except String α} {f : α → Except String β}
    {b : β} (h : (x >>= f) = .ok b) : ∃ a, x = .ok a ∧ f a = .ok b := by
  cases x with
  | error e => rw [except_bind_err] at h; exact Except.noConfusion h
  | ok a => rw [except_bind_ok] at h; exact ⟨a, rfl, h⟩

/-- C8: per-asset version monotonicity of the reconciler.  For distinct,
nonempty local filenames over a store with distinct keys whose listing
parses to `assets0`: every entry of the run's `updated_assets` whose base
key was put has version exactly one more than the version previously
recorded in the store for that name (one for a name with no record), and
every entry whose base key was not put keeps the recorded version
unchanged. -/
theorem C8_per_asset_version (bucket : Bucket) (localDir : List (Str × Str))
    (only : Option (List Str)) (compatible : Bool) (region : Str) (now : Nat)
    (res : RunResult) (cfgs0 : List (Str × ConfigDetails))
    (assets0 : List (Str × ExistingAsset))
    (hnd_local : (localDir.map Prod.fst).Nodup)
    (hne_local : ∀ p ∈ localDir, p.1 ≠ [])
    (hnd_keys : (bucket.objects.map Prod.fst).Nodup)
    (hparse : parse_bucket_objects bucket.objects = .ok (cfgs0, assets0))
    (hrun : update_changed_assets bucket localDir only compatible region now = .ok res) :
    ∀ sn e, res.updated_assets.lookup sn = some e →
      ((str "assets" ++ sn) ∈ res.puts →
        e.version = (match assets0.lookup sn with
          | some ea => ea.version | none => 0) + 1) ∧
      ((str "assets" ++ sn) ∉ res.puts →
        ∃ ea, assets0.lookup sn = some ea ∧ e.version = ea.version) := by
  unfold update_changed_assets at hrun
  rw [hparse, except_bind_ok] at hrun
  dsimp only at hrun
  obtain ⟨stf, hfold, hres⟩ := except_bind_ok_inv hrun
  obtain ⟨b1, c1, u1, p1⟩ := stf
  dsimp only at hres
  have hres2 := (Except.ok.inj hres).symm
  subst hres2
  have hexist : ∀ m ea, assets0.lookup m = some ea →
      ∃ o, bucket.objects.lookup (str "assets" ++ m) = some o ∧ o.body = ea.content ∧
        o.metaVersion = some ea.version := by
    intro m ea hea
    obtain ⟨o, h1, h2, h3, _⟩ := parsed_record_store bucket.objects hnd_keys hparse m ea hea
    exact ⟨o, h1, h2, h3⟩
  obtain ⟨g1, g2, g3, g4, newPuts, g5, g6, g7, g8⟩ :=
    process_fold_spec region now compatible localDir assets0 bucket.objects hexist
      _ _ _ hfold
      (List.Nodup.sublist (List.Sublist.map _ (List.filter_sublist _)) hnd_local)
      (fun p hp => hne_local p (List.mem_of_mem_filter hp))
      (fun _ _ _ => rfl)
  dsimp only at g5
  rw [List.nil_append] at g5
  intro sn e hlook
  dsimp only at hlook ⊢
  by_cases hc : ∃ p, p ∈ (localDir.filter fun a =>
      match only with
      | none => true
      | some names => names.contains (str "/" ++ a.1)) ∧
      takeLast 3 p.1 ≠ str ".gz" ∧ sn = str "/" ++ p.1
  · obtain ⟨p, hpA, hpg, hsn⟩ := hc
    subst hsn
    obtain ⟨e', o, k1, k2, k3, k4, k5, k6, k7, k8, k9, k10, k11⟩ := g8 p hpA hpg
    have hee : e' = e := by
      rw [k1] at hlook
      exact Option.some.inj hlook
    subst hee
    constructor
    · intro hin
      rcases k11 with ⟨_, hver⟩ | ⟨hnin, _⟩
      · exact hver
      · rw [g5] at hin
        exact absurd hin hnin
    · intro hnin
      rcases k11 with ⟨hin, _⟩ | ⟨_, ea, hea, _, hver⟩
      · rw [g5] at hnin
        exact absurd hin hnin
      · exact ⟨ea, hea, hver⟩
  · push_neg at hc
    have hnone : u1.lookup sn = none := g7 sn hc
    rw [hlook] at hnone
    exact Option.noConfusion hnone


/-- Concrete instance of the C8 monotonicity theorem: reconciling a fresh
asset over an empty store puts its base key and records version 1. -/
theorem C8_per_asset_version_witness :
    update_changed_assets C8_bucket C8_localDir none false (str "r") 5 = .ok C8_res ∧
    C8_res.updated_assets.lookup (str "/a") = some C8_entry ∧
    (str "assets" ++ str "/a") ∈ C8_res.puts ∧
    C8_entry.version = 1 := by
  refine ⟨by decide, by decide, by decide, ?_⟩
  have h := C8_per_asset_version C8_bucket C8_localDir none false (str "r") 5 C8_res
    [] [] (by decide) (by decide) (by decide) (by decide) (by decide)
  exact (h (str "/a") C8_entry (by decide)).1 (by decide)

/-- When every local asset is byte-identical to its recorded remote
content (and base objects carry version metadata, with compressed
siblings present where the local directory has one), the per-asset loop
succeeds without touching the store or the put list, and each processed
name's entry is read off the (unchanged) store. -/
theorem process_fold_stable (region : Str) (now : Nat) (compatible : Bool)
    (localDir : List (Str × Str)) (existing_assets : List (Str × ExistingAsset)) :
    ∀ (assets : List (Str × Str))
      (st : Bucket × List (Str × ConfigDetails) × List (Str × FileEntry) × List Str),
    (assets.map Prod.fst).Nodup →
    (∀ p ∈ assets, takeLast 3 p.1 ≠ str ".gz" →
      (∃ ea, existing_assets.lookup (str "/" ++ p.1) = some ea ∧
        ea.content = S3Body.bytes p.2) ∧
      (∃ o, st.1.objects.lookup (str "assets" ++ (str "/" ++ p.1)) = some o ∧
        o.metaVersion.isSome = true) ∧
      (pyTruthy (localDir.lookup (p.1 ++ str ".gz")) = true →
        (st.1.objects.lookup (str "assets" ++ (str "/" ++ p.1) ++ str ".gz")).isSome
          = true)) →
    ∃ st', assets.foldlM (process_asset region now compatible localDir existing_assets)
        st = .ok st' ∧
      st'.1 = st.1 ∧
      st'.2.2.2 = st.2.2.2 ∧
      (∀ m, (∀ p ∈ assets, takeLast 3 p.1 ≠ str ".gz" → m ≠ str "/" ++ p.1) →
        st'.2.2.1.lookup m = st.2.2.1.lookup m) ∧
      (∀ p ∈ assets, takeLast 3 p.1 ≠ str ".gz" →
        ∃ o, st.1.objects.lookup (str "assets" ++ (str "/" ++ p.1)) = some o ∧
          ∃ e, st'.2.2.1.lookup (str "/" ++ p.1) = some e ∧
            e.name = str "/" ++ p.1 ∧
            e.size = o.body.len ∧
            e.ftype = get_asset_type p.1 ∧
            e.url = asset_url region st.1.name (str "/" ++ p.1) o.versionId ∧
            o.metaVersion = some e.version ∧
            (pyTruthy (localDir.lookup (p.1 ++ str ".gz")) = true →
              ∃ zo, st.1.objects.lookup
                  (str "assets" ++ (str "/" ++ p.1) ++ str ".gz") = some zo ∧
                e.zsize = some zo.body.len ∧
                e.zurl = some (asset_zurl region st.1.name (str "/" ++ p.1) zo.versionId)) ∧
            (pyTruthy (localDir.lookup (p.1 ++ str ".gz")) = false →
              e.zsize = none ∧ e.zurl = none)) := by
  intro assets
  induction assets with
  | nil =>
    intro st _ _
    exact ⟨st, rfl, rfl, rfl, fun m _ => rfl, fun p hp => absurd hp (List.not_mem_nil p)⟩
  | cons hd tl ih =>
    intro st hnd hdec
    obtain ⟨bb, ccfgs, uua, ppts⟩ := st
    dsimp only at hdec ⊢
    obtain ⟨n, c⟩ := hd
    rw [List.map_cons, List.nodup_cons] at hnd
    have hdec_tl0 : ∀ p ∈ tl, takeLast 3 p.1 ≠ str ".gz" →
        (∃ ea, existing_assets.lookup (str "/" ++ p.1) = some ea ∧
          ea.content = S3Body.bytes p.2) ∧
        (∃ o, bb.objects.lookup (str "assets" ++ (str "/" ++ p.1)) = some o ∧
          o.metaVersion.isSome = true) ∧
        (pyTruthy (localDir.lookup (p.1 ++ str ".gz")) = true →
          (bb.objects.lookup (str "assets" ++ (str "/" ++ p.1) ++ str ".gz")).isSome
            = true) :=
      fun p hp hg => hdec p (List.mem_cons.mpr (Or.inr hp)) hg
    have hmem_map : ∀ q ∈ tl, q.1 ∈ tl.map Prod.fst :=
      fun q hq => List.mem_map.mpr ⟨q, hq, rfl⟩
    by_cases hgzn : takeLast 3 n = str ".gz"
    · obtain ⟨st', hfold', hbeq, hpeq, hfr, hper⟩ :=
        ih (bb, ccfgs, uua, ppts) hnd.2 hdec_tl0
      refine ⟨st', ?_, hbeq, hpeq, ?_, ?_⟩
      · rw [List.foldlM_cons, process_asset_gz_eq region now compatible localDir
          existing_assets (bb, ccfgs, uua, ppts) n c hgzn, except_bind_ok]
        exact hfold'
      · intro m hm
        exact hfr m (fun p hp hg => hm p (List.mem_cons.mpr (Or.inr hp)) hg)
      · intro p hp hg
        rcases List.mem_cons.mp hp with heq | hmem
        · rw [heq] at hg
          exact absurd hgzn hg
        · exact hper p hmem hg
    · obtain ⟨⟨ea, hea, heac⟩, ⟨o, ho, homs⟩, hz⟩ :=
        hdec (n, c) (List.mem_cons_self _ _) hgzn
      obtain ⟨fv, hfv⟩ := Option.isSome_iff_exists.mp homs
      have hstep : ∃ st1, process_asset region now compatible localDir existing_assets
          (bb, ccfgs, uua, ppts) (n, c) = .ok st1 ∧
          st1.1 = bb ∧ st1.2.2.2 = ppts ∧
          ∃ e, st1.2.2.1 = upsertKeep uua (str "/" ++ n) e ∧
            e.name = str "/" ++ n ∧ e.size = o.body.len ∧ e.ftype = get_asset_type n ∧
            e.url = asset_url region bb.name (str "/" ++ n) o.versionId ∧
            e.version = fv ∧
            (pyTruthy (localDir.lookup (n ++ str ".gz")) = true →
              ∃ zo, bb.objects.lookup
                  (str "assets" ++ (str "/" ++ n) ++ str ".gz") = some zo ∧
                e.zsize = some zo.body.len ∧
                e.zurl = some (asset_zurl region bb.name (str "/" ++ n) zo.versionId)) ∧
            (pyTruthy (localDir.lookup (n ++ str ".gz")) = false →
              e.zsize = none ∧ e.zurl = none) := by
        unfold process_asset
        dsimp only
        rw [if_neg hgzn]
        simp only [hea, if_pos heac]
        rw [update_asset_noupload_eq bb (str "/" ++ n) (get_asset_type n) c (0 + 1)
          (localDir.lookup (n ++ str ".gz")) compatible ccfgs region now o fv ho hfv]
        cases hzt : pyTruthy (localDir.lookup (n ++ str ".gz")) with
        | false =>
          simp only [Bool.false_eq_true, if_false, except_bind_ok]
          refine ⟨_, rfl, rfl, List.append_nil ppts, _, rfl, rfl, rfl, rfl, rfl, rfl,
            ?_, ?_⟩
          · intro h
            exact h.elim
          · intro _
            exact ⟨rfl, rfl⟩
        | true =>
          obtain ⟨zobj, hzo⟩ := Option.isSome_iff_exists.mp (hz hzt)
          have hzo' : getObj bb (str "assets" ++ (str "/" ++ n) ++ str ".gz") =
              some zobj := hzo
          simp only [if_true, hzo', except_bind_ok]
          refine ⟨_, rfl, rfl, List.append_nil ppts, _, rfl, rfl, rfl, rfl, rfl, rfl,
            ?_, ?_⟩
          · intro _
            exact ⟨zobj, hzo, rfl, rfl⟩
          · intro h
            exact Bool.noConfusion h
      obtain ⟨st1, hstep_eq, hb1, hp1, e, hua1, hen, hesz, heft, heu, hev, hzt1, hzf1⟩ :=
        hstep
      have hdec_tl : ∀ p ∈ tl, takeLast 3 p.1 ≠ str ".gz" →
          (∃ ea2, existing_assets.lookup (str "/" ++ p.1) = some ea2 ∧
            ea2.content = S3Body.bytes p.2) ∧
          (∃ o2, st1.1.objects.lookup (str "assets" ++ (str "/" ++ p.1)) = some o2 ∧
            o2.metaVersion.isSome = true) ∧
          (pyTruthy (localDir.lookup (p.1 ++ str ".gz")) = true →
            (st1.1.objects.lookup
              (str "assets" ++ (str "/" ++ p.1) ++ str ".gz")).isSome = true) := by
        intro p hp hg
        rw [hb1]
        exact hdec_tl0 p hp hg
      obtain ⟨st', hfold', hbeq, hpeq, hfr, hper⟩ := ih st1 hnd.2 hdec_tl
      refine ⟨st', ?_, hbeq.trans hb1, hpeq.trans hp1, ?_, ?_⟩
      · rw [List.foldlM_cons, hstep_eq, except_bind_ok]
        exact hfold'
      · intro m hm
        rw [hfr m (fun p hp hg => hm p (List.mem_cons.mpr (Or.inr hp)) hg), hua1]
        exact lookup_upsertKeep_ne _ _ _ _ (hm (n, c) (List.mem_cons_self _ _) hgzn)
      · intro p hp hg
        rcases List.mem_cons.mp hp with heq | hmem
        · subst heq
          dsimp only at hg ⊢
          have hlook : st'.2.2.1.lookup (str "/" ++ n) =
              st1.2.2.1.lookup (str "/" ++ n) := by
            refine hfr _ ?_
            intro q hq _ hh
            refine hnd.1 ?_
            rw [List.append_cancel_left hh]
            exact hmem_map q hq
          refine ⟨o, ho, e, ?_, hen, hesz, heft, heu, by rw [hev]; exact hfv, hzt1, hzf1⟩
          rw [hlook, hua1]
          exact lookup_upsertKeep_self _ _ _
        · obtain ⟨o2, ho2, e2, q1, q2, q3, q4, q5, q6, q7, q8⟩ := hper p hmem hg
          rw [hb1] at ho2 q5
          refine ⟨o2, ho2, e2, q1, q2, q3, q4, q5, q6, ?_, q8⟩
          intro hzt
          obtain ⟨zo, a1, a2, a3⟩ := q7 hzt
          rw [hb1] at a1 a3
          exact ⟨zo, a1, a2, a3⟩

/-- C3: reconciliation is idempotent.  For distinct, nonempty local
filenames over a store with distinct listing keys, a second reconciliation
run over the bucket produced by a successful first run (with the local
content unchanged) succeeds, performs zero puts, leaves the store
untouched, and reproduces exactly the same `updated_assets` entries
(same version, URL, size, and compressed fields for every name). -/
theorem C3_reconciler_idempotent (bucket : Bucket) (localDir : List (Str × Str))
    (only : Option (List Str)) (compatible : Bool) (region : Str) (now now2 : Nat)
    (res1 : RunResult)
    (hnd_local : (localDir.map Prod.fst).Nodup)
    (hne_local : ∀ p ∈ localDir, p.1 ≠ [])
    (hnd_keys : (bucket.objects.map Prod.fst).Nodup)
    (hrun : update_changed_assets bucket localDir only compatible region now = .ok res1) :
    ∃ res2, update_changed_assets res1.bucket localDir only compatible region now2 =
        .ok res2 ∧
      res2.puts = [] ∧ res2.bucket = res1.bucket ∧
      ∀ m, res2.updated_assets.lookup m = res1.updated_assets.lookup m := by
  unfold update_changed_assets at hrun
  obtain ⟨pr, hparse0, hrun2⟩ := except_bind_ok_inv hrun
  obtain ⟨cfgs0, assets0⟩ := pr
  dsimp only at hrun2
  obtain ⟨stf, hfold, hres⟩ := except_bind_ok_inv hrun2
  obtain ⟨b1, c1, u1, p1⟩ := stf
  dsimp only at hres
  have hres1 := (Except.ok.inj hres).symm
  subst hres1
  have hparse : parse_bucket_objects bucket.objects = .ok (cfgs0, assets0) := hparse0
  have hparse' : bucket.objects.foldlM classify_item ([], []) = .ok (cfgs0, assets0) :=
    hparse
  have hpre0 : parsePrecondsOK bucket.objects = true := by
    obtain ⟨hcb, hpm, hsafe⟩ :=
      parse_fold_ok_preconds bucket.objects ([], []) (cfgs0, assets0) hparse'
    unfold parsePrecondsOK
    rw [hcb, hpm, show gzSafeFrom [] bucket.objects = true from hsafe]
    rfl
  have hexist : ∀ m ea, assets0.lookup m = some ea →
      ∃ o, bucket.objects.lookup (str "assets" ++ m) = some o ∧ o.body = ea.content ∧
        o.metaVersion = some ea.version := by
    intro m ea hea
    obtain ⟨o, h1, h2, h3, _⟩ := parsed_record_store bucket.objects hnd_keys hparse m ea hea
    exact ⟨o, h1, h2, h3⟩
  obtain ⟨g1, g2, g3, g4, newPuts, g5, g6, g7, g8⟩ :=
    process_fold_spec region now compatible localDir assets0 bucket.objects hexist
      _ _ _ hfold
      (List.Nodup.sublist (List.Sublist.map _ (List.filter_sublist _)) hnd_local)
      (fun p hp => hne_local p (List.mem_of_mem_filter hp))
      (fun _ _ _ => rfl)
  dsimp only at g1 g8
  have hnd1 : (b1.objects.map Prod.fst).Nodup := g2 hnd_keys
  have hpre1 : parsePrecondsOK b1.objects = true := g3 hpre0
  have hcb1 : configBodiesOK b1.objects = true := by
    unfold parsePrecondsOK at hpre1
    rw [Bool.and_eq_true_iff, Bool.and_eq_true_iff] at hpre1
    exact hpre1.1.1
  have hpm1 : plainMetasOK b1.objects = true := by
    unfold parsePrecondsOK at hpre1
    rw [Bool.and_eq_true_iff, Bool.and_eq_true_iff] at hpre1
    exact hpre1.1.2
  have hsafe1 : gzSafeFrom [] b1.objects = true := by
    unfold parsePrecondsOK at hpre1
    rw [Bool.and_eq_true_iff, Bool.and_eq_true_iff] at hpre1
    exact hpre1.2
  obtain ⟨st2, hparse2, _⟩ := parse_fold_ok b1.objects ([], []) hcb1 hpm1 hsafe1
  obtain ⟨c2, a2⟩ := st2
  have hparse2' : parse_bucket_objects b1.objects = .ok (c2, a2) := hparse2
  have hdec : ∀ p ∈ (localDir.filter fun a =>
      match only with
      | none => true
      | some names => names.contains (str "/" ++ a.1)),
      takeLast 3 p.1 ≠ str ".gz" →
      (∃ ea, a2.lookup (str "/" ++ p.1) = some ea ∧ ea.content = S3Body.bytes p.2) ∧
      (∃ o, b1.objects.lookup (str "assets" ++ (str "/" ++ p.1)) = some o ∧
        o.metaVersion.isSome = true) ∧
      (pyTruthy (localDir.lookup (p.1 ++ str ".gz")) = true →
        (b1.objects.lookup (str "assets" ++ (str "/" ++ p.1) ++ str ".gz")).isSome
          = true) := by
    intro p hp hg
    have hne_p : p.1 ≠ [] := hne_local p (List.mem_of_mem_filter hp)
    obtain ⟨e1, o, k1, k2, k3, k4, k5, k6, k7, k8, k9, k10, k11⟩ := g8 p hp hg
    refine ⟨?_, ⟨o, k2, by rw [k4]; rfl⟩, ?_⟩
    · have hfields := parse_lookup_of_store b1.objects hnd1 hparse2' (str "/" ++ p.1) o
        k2 (base_key_plain p.1 hne_p hg) e1.version k4
      obtain ⟨ea2, hea2, hc1, _, _⟩ := assetFields_some hfields
      exact ⟨ea2, hea2, by rw [hc1]; exact k3⟩
    · intro hzt
      obtain ⟨zo, hzo, _, _⟩ := k9 hzt
      rw [hzo]
      rfl
  obtain ⟨st2', hfold2, hb2, hp2, hfr2, hper2⟩ :=
    process_fold_stable region now2 compatible localDir a2 _ (b1, c2, [], [])
      (List.Nodup.sublist (List.Sublist.map _ (List.filter_sublist _)) hnd_local)
      hdec
  obtain ⟨b2, cc2, uu2, pp2⟩ := st2'
  dsimp only at hb2 hp2 hfr2 hper2
  refine ⟨{ bucket := b2, updated_assets := uu2, configs := cc2, puts := pp2 },
    ?_, hp2, hb2, ?_⟩
  · show update_changed_assets b1 localDir only compatible region now2 = _
    unfold update_changed_assets
    rw [hparse2', except_bind_ok]
    dsimp only
    rw [hfold2, except_bind_ok]
  · intro m
    dsimp only
    by_cases hc : ∃ p, p ∈ (localDir.filter fun a =>
        match only with
        | none => true
        | some names => names.contains (str "/" ++ a.1)) ∧
        takeLast 3 p.1 ≠ str ".gz" ∧ m = str "/" ++ p.1
    · obtain ⟨p, hpA, hpg, hm⟩ := hc
      subst hm
      obtain ⟨e1, o, k1, k2, k3, k4, k5, k6, k7, k8, k9, k10, k11⟩ := g8 p hpA hpg
      obtain ⟨o2, ho2, e2, hlook2, q1, q2, q3, q4, q5, q6, q7⟩ := hper2 p hpA hpg
      have hoo : o2 = o := Option.some.inj (ho2.symm.trans k2)
      subst hoo
      have hee : e2 = e1 := by
        refine fileEntry_ext e2 e1 (q1.trans k5.symm) (q2.trans k6.symm)
          (q3.trans k7.symm) ?_ ?_ ?_ ?_
        · rw [q4, k8, g1]
        · exact Option.some.inj (q5.symm.trans k4)
        · cases hzt : pyTruthy (localDir.lookup (p.1 ++ str ".gz")) with
          | true =>
            obtain ⟨zo2, hzo2, hzs2, _⟩ := q6 hzt
            obtain ⟨zo1, hzo1, hzs1, _⟩ := k9 hzt
            have hzz : zo2 = zo1 := Option.some.inj (hzo2.symm.trans hzo1)
            subst hzz
            rw [hzs2, hzs1]
          | false =>
            rw [(q7 hzt).1, (k10 hzt).1]
        · cases hzt : pyTruthy (localDir.lookup (p.1 ++ str ".gz")) with
          | true =>
            obtain ⟨zo2, hzo2, _, hzu2⟩ := q6 hzt
            obtain ⟨zo1, hzo1, _, hzu1⟩ := k9 hzt
            have hzz : zo2 = zo1 := Option.some.inj (hzo2.symm.trans hzo1)
            subst hzz
            rw [hzu2, hzu1, g1]
          | false =>
            rw [(q7 hzt).2, (k10 hzt).2]
      rw [hlook2, hee, k1]
    · push_neg at hc
      rw [hfr2 _ hc]
      have hnone : u1.lookup m = none := g7 m hc
      rw [hnone]
      rfl


/-- Concrete instance of the C3 idempotence theorem: after a first run
uploads a fresh asset and its compressed sibling, a second run over the
resulting store performs zero puts, leaves the store unchanged, and
reproduces the same entry. -/
theorem C3_reconciler_idempotent_witness :
    update_changed_assets C3_bucket C3_localDir none true (str "r") 5 = .ok C3_res1 ∧
    update_changed_assets C3_res1.bucket C3_localDir none true (str "r") 9 =
      .ok C3_res2 ∧
    C3_res2.puts = [] ∧ C3_res2.bucket = C3_res1.bucket ∧
    C3_res2.updated_assets.lookup (str "/a") =
      C3_res1.updated_assets.lookup (str "/a") := by
  obtain ⟨res2, h1, h2, h3, h4⟩ := C3_reconciler_idempotent C3_bucket C3_localDir none
    true (str "r") 5 9 C3_res1 (by decide) (by decide) (by decide) (by decide)
  have hcalc : update_changed_assets C3_res1.bucket C3_localDir none true (str "r") 9 =
      .ok C3_res2 := by decide
  have he : res2 = C3_res2 := Except.ok.inj (h1.symm.trans hcalc)
  subst he
  exact ⟨by decide, h1, h2, h3, h4 (str "/a")⟩
